import Mathlib

/-!
# Verification of the wDogs-clone backend authentication core

Shallow embedding of `backend/index.js`:

* `isValidTelegramData` — the Telegram `initData` verifier (URLSearchParams
  parsing, HMAC-SHA256 chain, JSON claim extraction);
* the `/api/auth/validate` profile-synchronisation logic (create-if-absent,
  else merge-update against the document store).

JavaScript strings are modelled as Lean `String` (sequences of Unicode scalar
values); JavaScript machine integers do not occur on any modelled path.  The
`crypto` module's HMAC-SHA256 is embedded concretely (FIPS 180-4 over byte
lists as `Nat`), so every verdict is computable by the kernel.
-/

namespace WDogs

set_option maxRecDepth 200000

/-! ## JavaScript value modelling

`JStr` models a JavaScript field that may be `undefined`, `null` or a string.
Truthiness of such a value: only a non-empty string is truthy. -/

inductive JStr where
  | undef
  | null
  | str (s : String)
deriving DecidableEq, Repr

def JStr.truthy : JStr → Bool
  | .str s => !s.isEmpty
  | _ => false

/-- JavaScript `a || b` on `JStr` values. -/
def jsOr (a b : JStr) : JStr := if a.truthy then a else b

/-- A JavaScript value that is either a number or a string (used for the
`userId` field of a stored profile, whose type the spec and code disagree
about). -/
inductive IdVal where
  | numId (n : Int)
  | strId (s : String)
deriving DecidableEq, Repr

/-! ## Bytes and text encodings -/

/-- UTF-8 encoding of one Unicode scalar value (Lean `Char` is always a
scalar value, never a surrogate). -/
def utf8Char (c : Char) : List Nat :=
  let n := c.toNat
  if n < 128 then [n]
  else if n < 2048 then [192 + n / 64, 128 + n % 64]
  else if n < 65536 then [224 + n / 4096, 128 + (n / 64) % 64, 128 + n % 64]
  else [240 + n / 262144, 128 + (n / 4096) % 64, 128 + (n / 64) % 64, 128 + n % 64]

def utf8Bytes (s : String) : List Nat := s.data.flatMap utf8Char

/-- The UTF-16 code units of one scalar value, as used by JavaScript string
comparison. -/
def charUnits (c : Char) : List Nat :=
  let n := c.toNat
  if n < 65536 then [n]
  else [55296 + (n - 65536) / 1024, 56320 + (n - 65536) % 1024]

def codeUnits (s : String) : List Nat := s.data.flatMap charUnits

/-- WHATWG UTF-8 decode with replacement: invalid subsequences become
U+FFFD.  Fuel-recursive so the kernel can evaluate it. -/
def utf8DecodeFuel : Nat → List Nat → List Char
  | 0, _ => []
  | _, [] => []
  | f + 1, b :: bs =>
    if b < 128 then Char.ofNat b :: utf8DecodeFuel f bs
    else if 194 ≤ b ∧ b ≤ 223 then
      match bs with
      | c :: bs2 =>
        if 128 ≤ c ∧ c ≤ 191 then
          Char.ofNat ((b - 192) * 64 + (c - 128)) :: utf8DecodeFuel f bs2
        else Char.ofNat 65533 :: utf8DecodeFuel f bs
      | [] => [Char.ofNat 65533]
    else if 224 ≤ b ∧ b ≤ 239 then
      match bs with
      | c1 :: bs2 =>
        let lo := if b = 224 then 160 else 128
        let hi := if b = 237 then 159 else 191
        if lo ≤ c1 ∧ c1 ≤ hi then
          match bs2 with
          | c2 :: bs3 =>
            if 128 ≤ c2 ∧ c2 ≤ 191 then
              Char.ofNat ((b - 224) * 4096 + (c1 - 128) * 64 + (c2 - 128)) ::
                utf8DecodeFuel f bs3
            else Char.ofNat 65533 :: utf8DecodeFuel f bs2
          | [] => [Char.ofNat 65533]
        else Char.ofNat 65533 :: utf8DecodeFuel f bs
      | [] => [Char.ofNat 65533]
    else if 240 ≤ b ∧ b ≤ 244 then
      match bs with
      | c1 :: bs2 =>
        let lo := if b = 240 then 144 else 128
        let hi := if b = 244 then 143 else 191
        if lo ≤ c1 ∧ c1 ≤ hi then
          match bs2 with
          | c2 :: bs3 =>
            if 128 ≤ c2 ∧ c2 ≤ 191 then
              match bs3 with
              | c3 :: bs4 =>
                if 128 ≤ c3 ∧ c3 ≤ 191 then
                  Char.ofNat ((b - 240) * 262144 + (c1 - 128) * 4096 +
                      (c2 - 128) * 64 + (c3 - 128)) :: utf8DecodeFuel f bs4
                else Char.ofNat 65533 :: utf8DecodeFuel f bs3
              | [] => [Char.ofNat 65533]
            else Char.ofNat 65533 :: utf8DecodeFuel f bs2
          | [] => [Char.ofNat 65533]
        else Char.ofNat 65533 :: utf8DecodeFuel f bs
      | [] => [Char.ofNat 65533]
    else Char.ofNat 65533 :: utf8DecodeFuel f bs

def utf8Decode (bs : List Nat) : List Char := utf8DecodeFuel (bs.length) bs

/-! ## URLSearchParams (WHATWG application/x-www-form-urlencoded parser) -/

/-- Value of an ASCII hex digit byte. -/
def hexVal (b : Nat) : Option Nat :=
  if 48 ≤ b ∧ b ≤ 57 then some (b - 48)
  else if 65 ≤ b ∧ b ≤ 70 then some (b - 55)
  else if 97 ≤ b ∧ b ≤ 102 then some (b - 87)
  else none

/-- Percent-decoding at byte level; invalid escapes are left literal. -/
def percentDecodeFuel : Nat → List Nat → List Nat
  | 0, _ => []
  | _, [] => []
  | f + 1, b :: bs =>
    if b = 37 then
      match bs with
      | h1 :: h2 :: rest =>
        match hexVal h1, hexVal h2 with
        | some v1, some v2 => (v1 * 16 + v2) :: percentDecodeFuel f rest
        | _, _ => b :: percentDecodeFuel f bs
      | _ => b :: percentDecodeFuel f bs
    else b :: percentDecodeFuel f bs

def percentDecode (bs : List Nat) : List Nat := percentDecodeFuel bs.length bs

/-- Decode one name or value byte string: `+` becomes space, then
percent-decode, then UTF-8 decode. -/
def decodePart (bs : List Nat) : String :=
  String.mk (utf8Decode (percentDecode (bs.map fun b => if b = 43 then 32 else b)))

/-- Split a byte list on a separator byte; a trailing/leading/double
separator yields empty groups, exactly like `String.split`. -/
def splitOnByte (sep : Nat) : List Nat → List (List Nat)
  | [] => [[]]
  | b :: bs =>
    if b = sep then [] :: splitOnByte sep bs
    else
      match splitOnByte sep bs with
      | [] => [[b]]
      | g :: gs => (b :: g) :: gs

/-- Split a byte sequence at the first `=` (0x3D), if any. -/
def splitFirstEqByte : List Nat → Option (List Nat × List Nat)
  | [] => none
  | b :: bs =>
    if b = 61 then some ([], bs)
    else (splitFirstEqByte bs).map fun p => (b :: p.1, p.2)

/-- One `&`-separated sequence becomes a name/value pair; the empty
sequence is skipped. -/
def parseSeg (seg : List Nat) : Option (String × String) :=
  if seg.isEmpty then none
  else
    match splitFirstEqByte seg with
    | some (n, v) => some (decodePart n, decodePart v)
    | none => some (decodePart seg, "")

/-- Strip one leading `?`, as the `URLSearchParams` constructor does. -/
def stripQuestion (s : String) : String :=
  match s.data with
  | c :: rest => if c = Char.ofNat 63 then String.mk rest else s
  | [] => s

def urlParseBytes (bs : List Nat) : List (String × String) :=
  (splitOnByte 38 bs).filterMap parseSeg

/-- `new URLSearchParams(s)`: the resulting name/value pair list, in input
order, duplicates preserved. -/
def urlParse (s : String) : List (String × String) :=
  urlParseBytes (utf8Bytes (stripQuestion s))

/-- `params.get(k)`: the value of the FIRST pair with that name, if any. -/
def paramsGet : List (String × String) → String → Option String
  | [], _ => none
  | p :: ps, k => if p.1 = k then some p.2 else paramsGet ps k

/-- `params.delete(k)`: removes ALL pairs with that name. -/
def paramsDelete (ps : List (String × String)) (k : String) : List (String × String) :=
  ps.filter fun p => !(p.1 == k)

/-- Lexicographic (less-or-equal) comparison of code-unit lists, i.e.
JavaScript string comparison. -/
def unitsLe : List Nat → List Nat → Bool
  | [], _ => true
  | _ :: _, [] => false
  | a :: as, b :: bs =>
    if a < b then true else if b < a then false else unitsLe as bs

/-- Strict version of `unitsLe`. -/
def unitsLt : List Nat → List Nat → Bool
  | _, [] => false
  | [], _ :: _ => true
  | a :: as, b :: bs =>
    if a < b then true else if b < a then false else unitsLt as bs

def keyLt (a b : String × String) : Bool := unitsLt (codeUnits a.1) (codeUnits b.1)

/-- Stable insertion: the new element goes after every element whose key is
not strictly greater. -/
def insertPair (x : String × String) : List (String × String) → List (String × String)
  | [] => [x]
  | y :: ys => if keyLt x y then x :: y :: ys else y :: insertPair x ys

/-- `params.sort()`: stable sort of the pairs by name in UTF-16 code-unit
order (the WHATWG comparison). -/
def sortParams (ps : List (String × String)) : List (String × String) :=
  ps.foldl (fun acc x => insertPair x acc) []

/-! ## SHA-256 and HMAC-SHA256 (FIPS 180-4, RFC 2104)

Embeds Node's `crypto.createHmac('sha256', _)`.  Bytes and 32-bit words are
`Nat` with explicit reduction modulo 2^32; all recursion is structural so
the kernel can evaluate digests. -/

def M32 : Nat := 4294967296

def rotr (n w : Nat) : Nat :=
  ((w >>> n) ||| (w <<< (32 - n))) % M32

/-- The 64 SHA-256 round constants, written in decimal. -/
def shaK : List Nat :=
  [1116352408, 1899447441, 3049323471, 3921009573, 961987163, 1508970993,
   2453635748, 2870763221, 3624381080, 310598401, 607225278, 1426881987,
   1925078388, 2162078206, 2614888103, 3248222580, 3835390401, 4022224774,
   264347078, 604807628, 770255983, 1249150122, 1555081692, 1996064986,
   2554220882, 2821834349, 2952996808, 3210313671, 3336571891, 3584528711,
   113926993, 338241895, 666307205, 773529912, 1294757372, 1396182291,
   1695183700, 1986661051, 2177026350, 2456956037, 2730485921, 2820302411,
   3259730800, 3345764771, 3516065817, 3600352804, 4094571909, 275423344,
   430227734, 506948616, 659060556, 883997877, 958139571, 1322822218,
   1537002063, 1747873779, 1955562222, 2024104815, 2227730452, 2361852424,
   2428436474, 2756734187, 3204031479, 3329325298]

/-- The eight SHA-256 initial hash values, written in decimal. -/
def shaH0 : List Nat :=
  [1779033703, 3144134277, 1013904242, 2773480762,
   1359893119, 2600822924, 528734635, 1541459225]

/-- Message-schedule extension; the words computed so far are kept in
reverse order (most recent first) and `fuel` more are produced. -/
def schedExt : Nat → List Nat → List Nat
  | 0, rws => rws
  | fuel + 1, rws =>
    let w2 := rws.getD 1 0
    let w7 := rws.getD 6 0
    let w15 := rws.getD 14 0
    let w16 := rws.getD 15 0
    let s0 := (rotr 7 w15) ^^^ (rotr 18 w15) ^^^ (w15 >>> 3)
    let s1 := (rotr 17 w2) ^^^ (rotr 19 w2) ^^^ (w2 >>> 10)
    schedExt fuel (((w16 + s0 + w7 + s1) % M32) :: rws)

/-- One SHA-256 round on the 8-word state. -/
def shaRound (st : List Nat) (k : Nat) (w : Nat) : List Nat :=
  match st with
  | [a, b, c, d, e, f, g, h] =>
    let s1 := (rotr 6 e) ^^^ (rotr 11 e) ^^^ (rotr 25 e)
    let ch := (e &&& f) ^^^ ((M32 - 1 - e) &&& g)
    let t1 := (h + s1 + ch + k + w) % M32
    let s0 := (rotr 2 a) ^^^ (rotr 13 a) ^^^ (rotr 22 a)
    let mj := (a &&& b) ^^^ (a &&& c) ^^^ (b &&& c)
    let t2 := (s0 + mj) % M32
    [(t1 + t2) % M32, a, b, c, (d + t1) % M32, e, f, g]
  | _ => st

def shaCompress (h : List Nat) (block : List Nat) : List Nat :=
  let ws := (schedExt 48 block.reverse).reverse
  let st := (shaK.zip ws).foldl (fun s p => shaRound s p.1 p.2) h
  (h.zip st).map fun p => (p.1 + p.2) % M32

def bytesToWords : List Nat → List Nat
  | a :: b :: c :: d :: rest =>
    (a * 16777216 + b * 65536 + c * 256 + d) :: bytesToWords rest
  | _ => []

/-- Split a word list into 16-word blocks; fuel bounds the recursion. -/
def chunks16 : Nat → List Nat → List (List Nat)
  | 0, _ => []
  | _, [] => []
  | fuel + 1, l => l.take 16 :: chunks16 fuel (l.drop 16)

/-- SHA-256 padding: 0x80, zeros, 64-bit big-endian bit length. -/
def shaPad (msg : List Nat) : List Nat :=
  let len := msg.length
  let bitLen := len * 8
  let padLen := (64 - ((len + 9) % 64)) % 64
  msg ++ [0x80] ++ List.replicate padLen 0 ++
    [(bitLen >>> 56) % 256, (bitLen >>> 48) % 256, (bitLen >>> 40) % 256, (bitLen >>> 32) % 256,
     (bitLen >>> 24) % 256, (bitLen >>> 16) % 256, (bitLen >>> 8) % 256, bitLen % 256]

def sha256 (msg : List Nat) : List Nat :=
  let padded := bytesToWords (shaPad msg)
  let hf := (chunks16 padded.length padded).foldl shaCompress shaH0
  hf.flatMap fun w => [(w >>> 24) % 256, (w >>> 16) % 256, (w >>> 8) % 256, w % 256]

def hmacSha256 (key msg : List Nat) : List Nat :=
  let k0 := if key.length > 64 then sha256 key else key
  let kp := k0 ++ List.replicate (64 - k0.length) 0
  let ipad := kp.map fun b => b ^^^ 0x36
  let opad := kp.map fun b => b ^^^ 0x5c
  sha256 (opad ++ sha256 (ipad ++ msg))

def hexDigitChar (n : Nat) : Char :=
  Char.ofNat (if n < 10 then 48 + n else 87 + n)

/-- `digest('hex')`: lowercase hexadecimal rendering of a byte list. -/
def hexDigest (bs : List Nat) : String :=
  String.mk (bs.flatMap fun b => [hexDigitChar (b / 16), hexDigitChar (b % 16)])

/-! ## JSON (`JSON.parse`)

A strict ECMA-404 recursive-descent parser, fuel-recursive.  Number values
are kept as their literal text (no floating point is needed by any claim).
A `\uXXXX` escape that is a lone surrogate — representable in a JavaScript
string but not as a Lean `Char` — is modelled as U+FFFD. -/

inductive Json where
  | null
  | bool (b : Bool)
  | num (lit : String)
  | str (s : String)
  | arr (elems : List Json)
  | obj (fields : List (String × Json))
deriving Repr

/-- JavaScript object member insertion: a duplicate key keeps its first
position but takes the last value. -/
def objInsert (k : String) (v : Json) : List (String × Json) → List (String × Json)
  | [] => [(k, v)]
  | f :: fs => if f.1 = k then (k, v) :: fs else f :: objInsert k v fs

def jsonWs (c : Char) : Bool :=
  c = Char.ofNat 32 ∨ c = Char.ofNat 9 ∨ c = Char.ofNat 10 ∨ c = Char.ofNat 13

def skipWs (cs : List Char) : List Char := cs.dropWhile jsonWs

def isDigit (c : Char) : Bool := 48 ≤ c.toNat ∧ c.toNat ≤ 57

def hexDigitVal (c : Char) : Option Nat := hexVal c.toNat

/-- Four hex digits of a `\u` escape. -/
def readHex4 : List Char → Option (Nat × List Char)
  | a :: b :: c :: d :: rest =>
    match hexDigitVal a, hexDigitVal b, hexDigitVal c, hexDigitVal d with
    | some x, some y, some z, some w => some (x * 4096 + y * 256 + z * 16 + w, rest)
    | _, _, _, _ => none
  | _ => none

/-- JSON string body after the opening quote; returns content and the rest
after the closing quote. -/
def jStrBody : Nat → List Char → Option (List Char × List Char)
  | 0, _ => none
  | f + 1, cs =>
    match cs with
    | [] => none
    | c :: rest =>
      if c = Char.ofNat 34 then some ([], rest)
      else if c = Char.ofNat 92 then
        match rest with
        | [] => none
        | e :: r2 =>
          let simple : Option Char :=
            if e = Char.ofNat 34 then some (Char.ofNat 34)
            else if e = Char.ofNat 92 then some (Char.ofNat 92)
            else if e = Char.ofNat 47 then some (Char.ofNat 47)
            else if e = Char.ofNat 98 then some (Char.ofNat 8)
            else if e = Char.ofNat 102 then some (Char.ofNat 12)
            else if e = Char.ofNat 110 then some (Char.ofNat 10)
            else if e = Char.ofNat 114 then some (Char.ofNat 13)
            else if e = Char.ofNat 116 then some (Char.ofNat 9)
            else none
          match simple with
          | some ch =>
            (jStrBody f r2).map fun p => (ch :: p.1, p.2)
          | none =>
            if e = Char.ofNat 117 then
              match readHex4 r2 with
              | none => none
              | some (n, r3) =>
                if 55296 ≤ n ∧ n ≤ 56319 then
                  -- high surrogate: try to pair with a following \uDC00-\uDFFF
                  match r3 with
                  | u1 :: u2 :: r4 =>
                    if u1 = Char.ofNat 92 ∧ u2 = Char.ofNat 117 then
                      match readHex4 r4 with
                      | some (m, r5) =>
                        if 56320 ≤ m ∧ m ≤ 57343 then
                          (jStrBody f r5).map fun p =>
                            (Char.ofNat (65536 + (n - 55296) * 1024 + (m - 56320)) :: p.1, p.2)
                        else (jStrBody f r3).map fun p => (Char.ofNat 65533 :: p.1, p.2)
                      | none => (jStrBody f r3).map fun p => (Char.ofNat 65533 :: p.1, p.2)
                    else (jStrBody f r3).map fun p => (Char.ofNat 65533 :: p.1, p.2)
                  | _ => (jStrBody f r3).map fun p => (Char.ofNat 65533 :: p.1, p.2)
                else if 56320 ≤ n ∧ n ≤ 57343 then
                  (jStrBody f r3).map fun p => (Char.ofNat 65533 :: p.1, p.2)
                else
                  (jStrBody f r3).map fun p => (Char.ofNat n :: p.1, p.2)
            else none
      else if c.toNat < 32 then none
      else (jStrBody f rest).map fun p => (c :: p.1, p.2)

/-- Optional exponent part of a JSON number, appended to the literal
collected so far. -/
def jNumExp (lit : List Char) (cs : List Char) : Option (List Char × List Char) :=
  match cs with
  | e :: r =>
    if e = Char.ofNat 101 ∨ e = Char.ofNat 69 then
      let (es, r2) :=
        match r with
        | s :: r3 =>
          if s = Char.ofNat 43 ∨ s = Char.ofNat 45 then ([e, s], r3)
          else ([e], r)
        | [] => ([e], r)
      let ds := r2.takeWhile isDigit
      if ds.isEmpty then none else some (lit ++ es ++ ds, r2.drop ds.length)
    else some (lit, cs)
  | [] => some (lit, cs)

/-- JSON number literal: `-? (0 | [1-9][0-9]*) frac? exp?`; returns the
literal text. -/
def jNumLit (cs : List Char) : Option (List Char × List Char) :=
  let (sign, cs1) :=
    match cs with
    | c :: rest => if c = Char.ofNat 45 then ([c], rest) else (([] : List Char), cs)
    | [] => ([], cs)
  match cs1 with
  | [] => none
  | d :: rest =>
    if !isDigit d then none
    else
      let (intPart, cs2) :=
        if d = Char.ofNat 48 then ([d], rest)
        else
          let more := rest.takeWhile isDigit
          (d :: more, rest.drop more.length)
      match cs2 with
      | p :: r =>
        if p = Char.ofNat 46 then
          let ds := r.takeWhile isDigit
          if ds.isEmpty then none
          else jNumExp (sign ++ intPart ++ p :: ds) (r.drop ds.length)
        else jNumExp (sign ++ intPart) cs2
      | [] => some (sign ++ intPart, [])

mutual

/-- Parse one JSON value after skipping leading whitespace. -/
def jVal : Nat → List Char → Option (Json × List Char)
  | 0, _ => none
  | f + 1, cs =>
    let cs := skipWs cs
    match cs with
    | [] => none
    | c :: rest =>
      if c = Char.ofNat 123 then
        let r2 := skipWs rest
        match r2 with
        | d :: r3 =>
          if d = Char.ofNat 125 then some (Json.obj [], r3)
          else jObjLoop f r2 []
        | [] => none
      else if c = Char.ofNat 91 then
        let r2 := skipWs rest
        match r2 with
        | d :: r3 =>
          if d = Char.ofNat 93 then some (Json.arr [], r3)
          else jArrLoop f r2 []
        | [] => none
      else if c = Char.ofNat 34 then
        (jStrBody (rest.length + 1) rest).map fun p => (Json.str (String.mk p.1), p.2)
      else if c = Char.ofNat 116 then
        match rest with
        | r :: u :: e :: r4 =>
          if r = Char.ofNat 114 ∧ u = Char.ofNat 117 ∧ e = Char.ofNat 101 then
            some (Json.bool true, r4)
          else none
        | _ => none
      else if c = Char.ofNat 102 then
        match rest with
        | a :: l :: s :: e :: r5 =>
          if a = Char.ofNat 97 ∧ l = Char.ofNat 108 ∧ s = Char.ofNat 115 ∧ e = Char.ofNat 101 then
            some (Json.bool false, r5)
          else none
        | _ => none
      else if c = Char.ofNat 110 then
        match rest with
        | u :: l1 :: l2 :: r4 =>
          if u = Char.ofNat 117 ∧ l1 = Char.ofNat 108 ∧ l2 = Char.ofNat 108 then
            some (Json.null, r4)
          else none
        | _ => none
      else
        (jNumLit cs).map fun p => (Json.num (String.mk p.1), p.2)

/-- Object members: positioned at the (whitespace-skipped) start of a
member, i.e. at a string key. -/
def jObjLoop : Nat → List Char → List (String × Json) → Option (Json × List Char)
  | 0, _, _ => none
  | f + 1, cs, acc =>
    match cs with
    | c :: rest =>
      if c = Char.ofNat 34 then
        match jStrBody (rest.length + 1) rest with
        | none => none
        | some (kChars, r2) =>
          match skipWs r2 with
          | d :: r3 =>
            if d = Char.ofNat 58 then
              match jVal f r3 with
              | none => none
              | some (v, r4) =>
                let acc := objInsert (String.mk kChars) v acc
                match skipWs r4 with
                | e :: r5 =>
                  if e = Char.ofNat 44 then jObjLoop f (skipWs r5) acc
                  else if e = Char.ofNat 125 then some (Json.obj acc, r5)
                  else none
                | [] => none
            else none
          | [] => none
      else none
    | [] => none

/-- Array elements: positioned at the (whitespace-skipped) start of an
element. -/
def jArrLoop : Nat → List Char → List Json → Option (Json × List Char)
  | 0, _, _ => none
  | f + 1, cs, acc =>
    match jVal f cs with
    | none => none
    | some (v, r2) =>
      match skipWs r2 with
      | e :: r3 =>
        if e = Char.ofNat 44 then jArrLoop f r3 (acc ++ [v])
        else if e = Char.ofNat 93 then some (Json.arr (acc ++ [v]), r3)
        else none
      | [] => none

end

/-- `JSON.parse`: the whole input must be whitespace, one value,
whitespace. -/
def parseJson (s : String) : Option Json :=
  match jVal (2 * s.length + 8) s.data with
  | some (j, rest) => if (skipWs rest).isEmpty then some j else none
  | none => none

/-! ## The verifier `isValidTelegramData` -/

/-- The verdict object returned by `isValidTelegramData`.  The JavaScript
`user` property is `null` exactly when `user = none` here (so a top-level
JSON literal `null` in the payload and the failure branches coincide, as
they do in JavaScript); `error = none` models an absent `error` property. -/
structure Verdict where
  valid : Bool
  user : Option Json
  error : Option String

/-- The code's literal tag for the spec's `missing_hash` reason. -/
def errMissingHash : String := "Hash missing"

/-- The code's literal tag for the spec's `missing_user_data` reason. -/
def errMissingUser : String := "User data missing"

/-- The code's literal tag for the spec's `malformed_user_json` reason. -/
def errMalformedUser : String := "Invalid user data format"

/-- The code's literal tag for the spec's `hash_mismatch` reason. -/
def errHashMismatch : String := "Hash mismatch"

/-- The code's literal tag for the spec's `internal_error` reason (the
`catch` handler at the bottom of the verifier; unreachable in this model
because every modelled operation is total). -/
def errInternal : String := "Internal validation error"

/-- A top-level parsed `null` is the JavaScript value `null`, which is what
the failure branches also store in `user`. -/
def jsonToField : Json → Option Json
  | .null => none
  | j => some j

/-- JavaScript `parseInt(s, 10)`: skip whitespace, optional sign, then a
maximal run of decimal digits; `none` models `NaN`.  (Only used by the
advisory staleness check, whose result the source merely logs.) -/
def parseIntJS (s : String) : Option Int :=
  let cs := s.data.dropWhile fun c => jsonWs c ∨ c = Char.ofNat 11 ∨ c = Char.ofNat 12
  let (neg, cs1) :=
    match cs with
    | c :: rest =>
      if c = Char.ofNat 45 then (true, rest)
      else if c = Char.ofNat 43 then (false, rest)
      else (false, cs)
    | [] => (false, cs)
  let ds := cs1.takeWhile isDigit
  if ds.isEmpty then none
  else
    let n : Nat := ds.foldl (fun acc c => acc * 10 + (c.toNat - 48)) 0
    some (if neg then -(n : Int) else (n : Int))

/-- The advisory staleness flag (`timeDiff > EXPIRATION_SECONDS`); the
source only logs a warning when it is set, so it never affects the
verdict. -/
def staleFlag (now : Nat) (authDate : Option String) : Bool :=
  match authDate with
  | none => false
  | some s =>
    match parseIntJS s with
    | none => false            -- NaN: the comparison is false
    | some n => (now : Int) - n > 86400

/-- The data-check string of a (hash-free) pair list: sorted stably by name
in code-unit order, each pair rendered `key=value`, joined by newlines. -/
def dataCheckString (ps : List (String × String)) : String :=
  String.intercalate (String.mk [Char.ofNat 10])
    ((sortParams ps).map fun p => p.1 ++ "=" ++ p.2)

/-- The HMAC chain of the source: `secretKey = HMAC-SHA256("WebAppData",
botToken)`, then `hex(HMAC-SHA256(secretKey, dataCheckString))`. -/
def calcHashOfParams (ps : List (String × String)) (botToken : String) : String :=
  hexDigest (hmacSha256 (hmacSha256 (utf8Bytes "WebAppData") (utf8Bytes botToken))
    (utf8Bytes (dataCheckString (paramsDelete ps "hash"))))

/-- The verifier body after `URLSearchParams` construction (source lines
37-97). -/
def verdictOfParams (now : Nat) (ps : List (String × String)) (botToken : String) : Verdict :=
  match paramsGet ps "hash" with
  | none => { valid := false, user := none, error := some errMissingHash }
  | some hash =>
    if hash.isEmpty then { valid := false, user := none, error := some errMissingHash }
    else
      let ps2 := paramsDelete ps "hash"
      let _stale := staleFlag now (paramsGet ps2 "auth_date")
      let calculatedHash := calcHashOfParams ps botToken
      if calculatedHash = hash then
        match paramsGet ps2 "user" with
        | none => { valid := false, user := none, error := some errMissingUser }
        | some userJson =>
          if userJson.isEmpty then
            { valid := false, user := none, error := some errMissingUser }
          else
            match parseJson userJson with
            | none => { valid := false, user := none, error := some errMalformedUser }
            | some u => { valid := true, user := jsonToField u, error := none }
      else { valid := false, user := none, error := some errHashMismatch }

/-- `isValidTelegramData(initData, botToken)` from `backend/index.js`,
with the wall clock (`Math.floor(Date.now() / 1000)`) passed explicitly as
`now`. -/
def isValidTelegramData (now : Nat) (initData botToken : String) : Verdict :=
  if initData.isEmpty || botToken.isEmpty then
    { valid := false, user := none, error := none }
  else verdictOfParams now (urlParse initData) botToken

/-! ### Observables used to state the claims -/

/-- The hash embedded in the payload: the value of the first `hash` pair. -/
def suppliedHash (p : String) : Option String := paramsGet (urlParse p) "hash"

/-- The non-hash pairs of the payload. -/
def paramsNoHash (p : String) : List (String × String) :=
  paramsDelete (urlParse p) "hash"

/-- The hash the code recomputes for a payload and secret. -/
def calcHash (p secret : String) : String := calcHashOfParams (urlParse p) secret

/-- The raw (URL-decoded) `user` value embedded in the payload. -/
def embeddedUserRaw (p : String) : Option String := paramsGet (paramsNoHash p) "user"

/-- The claim embedded in the payload, when its `user` value parses. -/
def embeddedClaim (p : String) : Option Json := (embeddedUserRaw p).bind parseJson

/-- Whether the payload contains a `hash` pair at all. -/
def hasHashPair (p : String) : Bool := (suppliedHash p).isSome

/-! ### Spec-side data-check string (byte-wise key order)

Modelled from the spec: §4.1 step 4 sorts the remaining pairs "by key using
byte-wise ascending order", i.e. by the UTF-8 bytes of the key — whereas
`URLSearchParams.sort()` compares UTF-16 code units.  These differ only on
keys outside the Basic Multilingual Plane versus keys in U+E000..U+FFFF. -/

def byteKeyLt (a b : String × String) : Bool := unitsLt (utf8Bytes a.1) (utf8Bytes b.1)

def insertPairBytewise (x : String × String) :
    List (String × String) → List (String × String)
  | [] => [x]
  | y :: ys => if byteKeyLt x y then x :: y :: ys else y :: insertPairBytewise x ys

def sortParamsBytewise (ps : List (String × String)) : List (String × String) :=
  ps.foldl (fun acc x => insertPairBytewise x acc) []

/-- The spec's canonical data-check string (byte-wise ascending key
order). -/
def specDataCheckString (ps : List (String × String)) : String :=
  String.intercalate (String.mk [Char.ofNat 10])
    ((sortParamsBytewise ps).map fun p => p.1 ++ "=" ++ p.2)

/-- The hash prescribed by the spec's §4.1 steps 4-7 for a payload and
secret. -/
def specCalculatedHash (p secret : String) : String :=
  hexDigest (hmacSha256 (hmacSha256 (utf8Bytes "WebAppData") (utf8Bytes secret))
    (utf8Bytes (specDataCheckString (paramsNoHash p))))

/-! ## Profile synchronisation (`POST /api/auth/validate`, source lines
163-218)

The document store is a key-to-document map; `admin.firestore.FieldValue.serverTimestamp()`
is an injected `now : Nat`.  `nanoid(8)` is an injected `freshCode`
argument.  A Firestore write whose data contains an `undefined` value is
rejected client-side, which the route's `catch` turns into a 500 — modelled
as `none`. -/

/-- The identity claim as the route reads it off the validated `user`
object. -/
structure TgUser where
  id : Int
  username : JStr
  first_name : JStr
  last_name : JStr
  language_code : JStr
deriving DecidableEq, Repr

/-- A stored user document.  `Option` fields model possibly-missing
numeric/timestamp data (`none` for absent-or-null, which the code treats
alike via `??`). -/
structure Profile where
  userId : IdVal
  username : JStr
  firstName : JStr
  lastName : JStr
  languageCode : JStr
  tokens : Option Int
  referralCode : Option String
  referredBy : JStr
  referralsMade : Option Int
  createdAt : Option Nat
  lastLogin : Option Nat
  connectedWallet : JStr
deriving DecidableEq, Repr

/-- The `updateData` object built for an existing user (source lines
177-183). -/
structure UpdateData where
  lastLogin : Nat
  username : JStr
  firstName : JStr
  lastName : JStr
  languageCode : JStr
deriving DecidableEq, Repr

def mkUpdateData (now : Nat) (tg : TgUser) (existing : Profile) : UpdateData :=
  { lastLogin := now
  , username := jsOr tg.username (jsOr existing.username JStr.null)
  , firstName := jsOr tg.first_name existing.firstName
  , lastName := jsOr tg.last_name (jsOr existing.lastName JStr.null)
  , languageCode := jsOr tg.language_code existing.languageCode }

/-- Firestore rejects a write containing `undefined`. -/
def updateWritable (u : UpdateData) : Bool :=
  u.username ≠ JStr.undef ∧ u.firstName ≠ JStr.undef ∧
    u.lastName ≠ JStr.undef ∧ u.languageCode ≠ JStr.undef

/-- `userRef.update(updateData)`: merge the update fields over the stored
document. -/
def applyUpdate (existing : Profile) (u : UpdateData) : Profile :=
  { existing with
      lastLogin := some u.lastLogin
      username := u.username
      firstName := u.firstName
      lastName := u.lastName
      languageCode := u.languageCode }

/-- The existing-user branch: the stored document after a successful
`update`, or `none` when the write is rejected. -/
def syncExisting (existing : Profile) (tg : TgUser) (now : Nat) : Option Profile :=
  let u := mkUpdateData now tg existing
  if updateWritable u then some (applyUpdate existing u) else none

/-- The new-user document (source lines 195-213); `userId` stores the
NUMERIC Telegram id (the comment in the source says "Store numeric ID as
well"), while the document key is `String(telegramUser.id)`. -/
def newUserProfile (tg : TgUser) (freshCode : String) (now : Nat) : Profile :=
  { userId := IdVal.numId tg.id
  , username := jsOr tg.username JStr.null
  , firstName := jsOr tg.first_name (JStr.str "User")
  , lastName := jsOr tg.last_name JStr.null
  , languageCode := jsOr tg.language_code (JStr.str "en")
  , tokens := some 0
  , referralCode := some freshCode
  , referredBy := JStr.null
  , referralsMade := some 0
  , createdAt := some now
  , lastLogin := some now
  , connectedWallet := JStr.null }

/-- The users collection, keyed by the string user id. -/
abbrev UserStore := List (String × Profile)

def lookupStore : UserStore → String → Option Profile
  | [], _ => none
  | e :: es, k => if e.1 = k then some e.2 else lookupStore es k

/-- Write a document at a key (set/update both land here: per-document
replacement of the stored value). -/
def storeSet : UserStore → String → Profile → UserStore
  | [], k, p => [(k, p)]
  | e :: es, k, p =>
    if e.1 = k then (k, p) :: es else e :: storeSet es k p

/-- The response view for an existing user: the merged document with
`tokens`/`referralsMade` defaulted via `??` (source lines 187-190). -/
def mergedView (p : Profile) : Profile :=
  { p with
      tokens := some (p.tokens.getD 0)
      referralsMade := some (p.referralsMade.getD 0) }

/-- Steps 2-3 of the route after successful verification: fetch by
`String(telegramUser.id)`, then create or merge-update.  Returns the new
store contents and the profile sent back, or `none` for a store-layer
failure (500). -/
def syncProfile (store : UserStore) (tg : TgUser) (freshCode : String) (now : Nat) :
    Option (UserStore × Profile) :=
  let key := toString tg.id
  match lookupStore store key with
  | some existing =>
    match syncExisting existing tg now with
    | some p => some (storeSet store key p, mergedView p)
    | none => none
  | none =>
    let p := newUserProfile tg freshCode now
    some (storeSet store key p, p)

/-! ## Concrete inputs used by witnesses and counterexamples

All hexadecimal hash constants were computed with an independent
HMAC-SHA256 implementation and are re-verified against the embedded one by
the theorems that use them. -/

/-- The spec §8 end-to-end payload: valid signature for secret `S3cr3t`. -/
def pAnn : String :=
  "auth_date=1700000000&user=%7B%22id%22%3A42%2C%22first_name%22%3A%22Ann%22%7D&hash=dd7d06b20d867618a72e34a8760e18ec5646734fdefae1cb033c1fd784d30a63"

/-- U+FF61 (halfwidth full stop): one code unit 0xFF61; UTF-8 bytes
EF BD A1. -/
def keyHw : String := "｡"

/-- U+10000: code units D800 DC00; UTF-8 bytes F0 90 80 80.  In code-unit
order it sorts BELOW `keyHw`; in byte-wise order it sorts ABOVE it. -/
def keySupp : String := String.mk [Char.ofNat 65536]

/-- Payload whose `hash` is the spec-prescribed HMAC over the BYTE-WISE
sorted data-check string, for secret `S`; the code's code-unit sort yields
a different string, so the code rejects it. -/
def pExotic : String :=
  "user=%7B%22id%22%3A1%7D&" ++ keyHw ++ "=1&" ++ keySupp ++
    "=2&hash=c363612bc04710ceb961a5b418b44b8fd8fd112dde349f3cf2a6b88fe155b479"

/-- Correctly signed for the EMPTY secret (data-check string `user={}`). -/
def pEmptySecret : String :=
  "user=%7B%7D&hash=eaa9c717ab5941c33bc15ab26df9e951e64d1234aa3b2a7e411114c39eeaa403"

/-- Correctly signed for secret `S`, with an empty `user` value. -/
def pEmptyUser : String :=
  "user=&hash=566608b43f82f8f115e8e943a51bf92e5574dab8f13d0d6bdbbb822fa32526cd"

/-- Correctly signed for secret `S`, with `user` value `\x7bbad` that is
not valid JSON. -/
def pBadJson : String :=
  "user=%7Bbad&hash=62d3b1bed1d5bc1bcd8a9733b8f6e6b521db01688e6428a4df83002851c7d02f"

/-- Correctly signed for secret `S`, with `user` value the JSON literal
`null`. -/
def pNullUser : String :=
  "user=null&hash=61462074c6a1aa639ad63dc700add090b0577eb7b71e4614baf78351af725b2a"

/-- A no-hash payload that is signed over data-check string `user=\x7b\x7d`
for secret `S`, i.e. `fc66...` is its correct hash. -/
def hashUserEmptyObj : String :=
  "fc667687d7aabddde47428e8afef66c71df4b18cc0dab627b67d3db45e8737d3"

/-- Segments whose first pair carries the CORRECT hash for secret `S` and
whose second pair carries a wrong one. -/
def segsDupHashA : List String := ["hash=" ++ hashUserEmptyObj, "hash=x", "user=%7B%7D"]

/-- The same segments with the two hash pairs swapped. -/
def segsDupHashB : List String := ["hash=x", "hash=" ++ hashUserEmptyObj, "user=%7B%7D"]

/-- Correct hash for secret `S` over data-check string `u=1`, newline,
`user=\x7b\x7d`. -/
def hashQu : String := "9f742dad1fe42c3f82aa1d4f3944b81abf4d18661660a3cf034361f601fbddde"

/-- Segments with pairwise-distinct keys where the leading segment starts
with `?`, which the parser strips when (and only when) it is first. -/
def segsQuA : List String := ["?u=1", "user=%7B%7D", "hash=" ++ hashQu]

/-- The same segments with the first two swapped. -/
def segsQuB : List String := ["user=%7B%7D", "?u=1", "hash=" ++ hashQu]

/-- Reassemble `&`-separated segments into a raw payload string. -/
def joinAmp : List String → String
  | [] => ""
  | [s] => s
  | s :: rest => s ++ "&" ++ joinAmp rest

/-- The non-strict companion of `keyLt`, as a Prop for `Pairwise`. -/
def keyLe (a b : String × String) : Prop := keyLt b a = false

/-- A stored profile used by the sync fixtures. -/
def exBob : Profile :=
  { userId := IdVal.numId 7
  , username := JStr.str "bob"
  , firstName := JStr.str "Bob"
  , lastName := JStr.null
  , languageCode := JStr.str "en"
  , tokens := some 5
  , referralCode := some "ref12345"
  , referredBy := JStr.null
  , referralsMade := some 1
  , createdAt := some 100
  , lastLogin := some 100
  , connectedWallet := JStr.null }

/-- A claim whose `username` is PRESENT but the empty string (falsy in
JavaScript). -/
def tgBo : TgUser :=
  { id := 7
  , username := JStr.str ""
  , first_name := JStr.str "Bo"
  , last_name := JStr.undef
  , language_code := JStr.undef }

/-- A fresh claim whose `first_name` is PRESENT but the empty string. -/
def tgNew : TgUser :=
  { id := 42
  , username := JStr.undef
  , first_name := JStr.str ""
  , last_name := JStr.undef
  , language_code := JStr.undef }

/-- An ordinary fresh claim. -/
def tgCarol : TgUser :=
  { id := -3
  , username := JStr.str "carol"
  , first_name := JStr.str "Carol"
  , last_name := JStr.undef
  , language_code := JStr.str "fr" }

/-- Last-value-wins lookup (what the spec's duplicate-key policy would
extract), for comparison with `paramsGet`. -/
def paramsGetLast (ps : List (String × String)) (k : String) : Option String :=
  paramsGet ps.reverse k

/-! # Theorems -/

/-! ## Branch characterisation of the verifier -/

theorem isEmpty_false {s : String} (h : s ≠ "") : s.isEmpty = false := by
  cases hh : s.isEmpty
  · rfl
  · exact absurd ((String.isEmpty_iff _).mp hh) h

theorem run_verify (now : Nat) (p tok : String) (hp : p ≠ "") (ht : tok ≠ "") :
    isValidTelegramData now p tok = verdictOfParams now (urlParse p) tok := by
  simp [isValidTelegramData, isEmpty_false hp, isEmpty_false ht]

theorem verdict_hash_none (now : Nat) (ps : List (String × String)) (tok : String)
    (h : paramsGet ps "hash" = none) :
    verdictOfParams now ps tok =
      { valid := false, user := none, error := some errMissingHash } := by
  unfold verdictOfParams; rw [h]

theorem verdict_hash_empty (now : Nat) (ps : List (String × String)) (tok : String)
    (h : paramsGet ps "hash" = some "") :
    verdictOfParams now ps tok =
      { valid := false, user := none, error := some errMissingHash } := by
  unfold verdictOfParams; rw [h]; simp [String.isEmpty]

theorem verdict_mismatch (now : Nat) (ps : List (String × String)) (tok h : String)
    (hh : paramsGet ps "hash" = some h) (hne : h ≠ "")
    (hc : calcHashOfParams ps tok ≠ h) :
    verdictOfParams now ps tok =
      { valid := false, user := none, error := some errHashMismatch } := by
  unfold verdictOfParams; rw [hh]; simp [isEmpty_false hne, hc]

theorem verdict_user_none (now : Nat) (ps : List (String × String)) (tok h : String)
    (hh : paramsGet ps "hash" = some h) (hne : h ≠ "")
    (hc : calcHashOfParams ps tok = h)
    (hu : paramsGet (paramsDelete ps "hash") "user" = none) :
    verdictOfParams now ps tok =
      { valid := false, user := none, error := some errMissingUser } := by
  unfold verdictOfParams; rw [hh]; simp [isEmpty_false hne, hc, hu]

theorem verdict_user_empty (now : Nat) (ps : List (String × String)) (tok h : String)
    (hh : paramsGet ps "hash" = some h) (hne : h ≠ "")
    (hc : calcHashOfParams ps tok = h)
    (hu : paramsGet (paramsDelete ps "hash") "user" = some "") :
    verdictOfParams now ps tok =
      { valid := false, user := none, error := some errMissingUser } := by
  have he : ("" : String).isEmpty = true := rfl
  unfold verdictOfParams; rw [hh]; simp [isEmpty_false hne, hc, hu, he]

theorem verdict_user_malformed (now : Nat) (ps : List (String × String)) (tok h u : String)
    (hh : paramsGet ps "hash" = some h) (hne : h ≠ "")
    (hc : calcHashOfParams ps tok = h)
    (hu : paramsGet (paramsDelete ps "hash") "user" = some u) (hune : u ≠ "")
    (hj : parseJson u = none) :
    verdictOfParams now ps tok =
      { valid := false, user := none, error := some errMalformedUser } := by
  unfold verdictOfParams; rw [hh]; simp [isEmpty_false hne, hc, hu, isEmpty_false hune, hj]

theorem verdict_valid (now : Nat) (ps : List (String × String)) (tok h u : String)
    (j : Json)
    (hh : paramsGet ps "hash" = some h) (hne : h ≠ "")
    (hc : calcHashOfParams ps tok = h)
    (hu : paramsGet (paramsDelete ps "hash") "user" = some u) (hune : u ≠ "")
    (hj : parseJson u = some j) :
    verdictOfParams now ps tok =
      { valid := true, user := jsonToField j, error := none } := by
  unfold verdictOfParams; rw [hh]; simp [isEmpty_false hne, hc, hu, isEmpty_false hune, hj]

/-- A verdict is valid exactly when the supplied hash is non-empty and
matches the recomputed one and the (non-empty) user value parses; in that
case the user field is the parsed claim with top-level null collapsed. -/
theorem verdict_valid_iff (now : Nat) (ps : List (String × String)) (tok : String) :
    (verdictOfParams now ps tok).valid = true ↔
      ∃ h u j, paramsGet ps "hash" = some h ∧ h ≠ "" ∧
        calcHashOfParams ps tok = h ∧
        paramsGet (paramsDelete ps "hash") "user" = some u ∧ u ≠ "" ∧
        parseJson u = some j := by
  constructor
  · intro hv
    cases hh : paramsGet ps "hash" with
    | none => rw [verdict_hash_none now ps tok hh] at hv; simp at hv
    | some h =>
      by_cases hne : h = ""
      · subst hne; rw [verdict_hash_empty now ps tok hh] at hv; simp at hv
      · by_cases hc : calcHashOfParams ps tok = h
        · cases hu : paramsGet (paramsDelete ps "hash") "user" with
          | none => rw [verdict_user_none now ps tok h hh hne hc hu] at hv; simp at hv
          | some u =>
            by_cases hune : u = ""
            · subst hune
              rw [verdict_user_empty now ps tok h hh hne hc hu] at hv; simp at hv
            · cases hj : parseJson u with
              | none =>
                rw [verdict_user_malformed now ps tok h u hh hne hc hu hune hj] at hv
                simp at hv
              | some j => exact ⟨h, u, j, rfl, hne, hc, rfl, hune, hj⟩
        · rw [verdict_mismatch now ps tok h hh hne hc] at hv; simp at hv
  · rintro ⟨h, u, j, hh, hne, hc, hu, hune, hj⟩
    rw [verdict_valid now ps tok h u j hh hne hc hu hune hj]

/-- When the verdict is valid its user field is the parsed embedded
claim. -/
theorem verdict_valid_user (now : Nat) (ps : List (String × String)) (tok : String)
    (hv : (verdictOfParams now ps tok).valid = true) :
    ∃ u j, paramsGet (paramsDelete ps "hash") "user" = some u ∧
      parseJson u = some j ∧ (verdictOfParams now ps tok).user = jsonToField j := by
  obtain ⟨h, u, j, hh, hne, hc, hu, hune, hj⟩ := (verdict_valid_iff now ps tok).mp hv
  exact ⟨u, j, hu, hj, by rw [verdict_valid now ps tok h u j hh hne hc hu hune hj]⟩

/-- An invalid verdict carries no user. -/
theorem verdict_invalid_user_none (now : Nat) (ps : List (String × String)) (tok : String)
    (hv : (verdictOfParams now ps tok).valid = false) :
    (verdictOfParams now ps tok).user = none := by
  cases hh : paramsGet ps "hash" with
  | none => rw [verdict_hash_none now ps tok hh]
  | some h =>
    by_cases hne : h = ""
    · subst hne; rw [verdict_hash_empty now ps tok hh]
    · by_cases hc : calcHashOfParams ps tok = h
      · cases hu : paramsGet (paramsDelete ps "hash") "user" with
        | none => rw [verdict_user_none now ps tok h hh hne hc hu]
        | some u =>
          by_cases hune : u = ""
          · subst hune; rw [verdict_user_empty now ps tok h hh hne hc hu]
          · cases hj : parseJson u with
            | none => rw [verdict_user_malformed now ps tok h u hh hne hc hu hune hj]
            | some j =>
              rw [verdict_valid now ps tok h u j hh hne hc hu hune hj] at hv
              simp at hv
      · rw [verdict_mismatch now ps tok h hh hne hc]

/-- The verifier short-circuits on an empty payload or empty secret. -/
theorem run_short (now : Nat) (p s : String) (h : (p.isEmpty || s.isEmpty) = true) :
    isValidTelegramData now p s =
      { valid := false, user := none, error := none } := by
  simp [isValidTelegramData, h]

/-- Every run is either the short-circuit verdict or the parsed-parameter
verdict. -/
theorem run_cases (now : Nat) (p s : String) :
    isValidTelegramData now p s = { valid := false, user := none, error := none } ∨
      isValidTelegramData now p s = verdictOfParams now (urlParse p) s := by
  by_cases hp : p = ""
  · exact Or.inl (run_short now p s (by simp [hp, String.isEmpty]))
  · by_cases hs : s = ""
    · exact Or.inl (run_short now p s (by simp [hs, String.isEmpty]))
    · exact Or.inr (run_verify now p s hp hs)

/-! ## Digest length facts (a hex digest is never the empty string) -/

theorem shaRound_length (st : List Nat) (k w : Nat) :
    (shaRound st k w).length = st.length := by
  unfold shaRound
  split <;> simp_all

theorem foldl_shaRound_length (l : List (Nat × Nat)) (st : List Nat) :
    (l.foldl (fun s p => shaRound s p.1 p.2) st).length = st.length := by
  induction l generalizing st with
  | nil => rfl
  | cons a l ih => rw [List.foldl_cons, ih, shaRound_length]

theorem shaCompress_length (h block : List Nat) :
    (shaCompress h block).length = h.length := by
  unfold shaCompress
  rw [List.length_map, List.length_zip, foldl_shaRound_length, Nat.min_self]

theorem foldl_shaCompress_length (bs : List (List Nat)) (h : List Nat) :
    (bs.foldl shaCompress h).length = h.length := by
  induction bs generalizing h with
  | nil => rfl
  | cons b bs ih => rw [List.foldl_cons, ih, shaCompress_length]

theorem sha256_ne_nil (msg : List Nat) : sha256 msg ≠ [] := by
  intro he
  have he2 : ((chunks16 (bytesToWords (shaPad msg)).length
      (bytesToWords (shaPad msg))).foldl shaCompress shaH0).flatMap
        (fun w => [(w >>> 24) % 256, (w >>> 16) % 256, (w >>> 8) % 256, w % 256]) =
      [] := he
  have hl := foldl_shaCompress_length
    (chunks16 (bytesToWords (shaPad msg)).length (bytesToWords (shaPad msg))) shaH0
  rcases hf : (chunks16 (bytesToWords (shaPad msg)).length
      (bytesToWords (shaPad msg))).foldl shaCompress shaH0 with _ | ⟨w, rest⟩
  · rw [hf] at hl; simp [shaH0] at hl
  · rw [hf] at he2; simp [List.flatMap_cons] at he2

theorem hmacSha256_ne_nil (key msg : List Nat) : hmacSha256 key msg ≠ [] := by
  unfold hmacSha256
  exact sha256_ne_nil _

theorem hexDigest_ne_empty (bs : List Nat) (h : bs ≠ []) : hexDigest bs ≠ "" := by
  rcases bs with _ | ⟨b, rest⟩
  · exact absurd rfl h
  · unfold hexDigest
    intro he
    have hd : ((b :: rest).flatMap fun x => [hexDigitChar (x / 16), hexDigitChar (x % 16)]) =
        ([] : List Char) := congrArg String.data he
    simp [List.flatMap_cons] at hd

theorem calcHashOfParams_ne_empty (ps : List (String × String)) (s : String) :
    calcHashOfParams ps s ≠ "" :=
  hexDigest_ne_empty _ (hmacSha256_ne_nil _ _)

/-! ## The claims -/

/-- C10: for every payload and time, the verifier called with the
empty-string secret short-circuits to `valid = false` with no claim and no
reason code. -/
theorem C10_empty_secret_short_circuit (now : Nat) (p : String) :
    isValidTelegramData now p "" =
      { valid := false, user := none, error := none } := by
  have h : "".isEmpty = true := rfl
  simp [isValidTelegramData, h]

/-- C7: the verifier is deterministic — the wall-clock time passed for the
staleness check never changes the verdict; concretely, the correctly
signed spec §8 payload with `auth_date = 1700000000` is still accepted at
a time far beyond the 24-hour staleness threshold, even though the
staleness flag is set. -/
theorem C7_deterministic :
    (∀ (t₁ t₂ : Nat) (p s : String),
        isValidTelegramData t₁ p s = isValidTelegramData t₂ p s) ∧
      (isValidTelegramData 10000000000 pAnn "S3cr3t").valid = true ∧
      staleFlag 10000000000
          (paramsGet (paramsDelete (urlParse pAnn) "hash") "auth_date") = true := by
  refine ⟨fun t₁ t₂ p s => rfl, by decide, by decide⟩

/-- C3 counterexample: a correctly signed payload whose `user` value is
the JSON literal `null` is accepted with `valid = true` but with no claim
(`user = null`), violating the invariant that `valid = true` implies the
claim is present. -/
theorem C3_counterexample :
    isValidTelegramData 0 pNullUser "S" =
      { valid := true, user := none, error := none } := rfl

/-- C3 (amended): `valid = false` implies the claim is absent; `valid =
true` implies the embedded user value parsed as JSON and the returned
claim is that parse with a top-level JSON `null` collapsed to the absent
claim (so the claim can be absent on the valid path exactly when the
payload's user field is the literal `null`). -/
theorem C3_amended (now : Nat) (p s : String) :
    ((isValidTelegramData now p s).valid = false →
        (isValidTelegramData now p s).user = none) ∧
      ((isValidTelegramData now p s).valid = true →
        ∃ u j, embeddedUserRaw p = some u ∧ parseJson u = some j ∧
          (isValidTelegramData now p s).user = jsonToField j) := by
  rcases run_cases now p s with h | h
  · rw [h]
    exact ⟨fun _ => rfl, fun hv => by simp at hv⟩
  · rw [h]
    refine ⟨verdict_invalid_user_none now (urlParse p) s, fun hv => ?_⟩
    obtain ⟨u, j, hu, hj, huser⟩ := verdict_valid_user now (urlParse p) s hv
    exact ⟨u, j, hu, hj, huser⟩

/-- Witness for the amended C3 at concrete inputs: a hashless payload is
invalid with no claim, and the spec §8 payload is valid with its parsed
claim. -/
theorem C3_amended_witness :
    (isValidTelegramData 0 "x" "S").user = none ∧
      ∃ u j, embeddedUserRaw pAnn = some u ∧ parseJson u = some j ∧
        (isValidTelegramData 0 pAnn "S3cr3t").user = jsonToField j :=
  ⟨(C3_amended 0 "x" "S").1 rfl, (C3_amended 0 pAnn "S3cr3t").2 rfl⟩

/-- C8: the verifier is a total function whose every outcome is one of the
tagged verdicts (reason absent, missing hash, hash mismatch, missing user
data, malformed user JSON, or a valid verdict); no exception crosses its
boundary — the source's `catch` lands on the `internal_error` tag, which
is unreachable here because every modelled operation is total. -/
theorem C8_total_tagged (now : Nat) (p s : String) :
    isValidTelegramData now p s = { valid := false, user := none, error := none } ∨
      isValidTelegramData now p s =
        { valid := false, user := none, error := some errMissingHash } ∨
      isValidTelegramData now p s =
        { valid := false, user := none, error := some errHashMismatch } ∨
      isValidTelegramData now p s =
        { valid := false, user := none, error := some errMissingUser } ∨
      isValidTelegramData now p s =
        { valid := false, user := none, error := some errMalformedUser } ∨
      ∃ j, isValidTelegramData now p s =
        { valid := true, user := jsonToField j, error := none } := by
  rcases run_cases now p s with h | h
  · exact Or.inl h
  · rw [h]
    cases hh : paramsGet (urlParse p) "hash" with
    | none => exact Or.inr (Or.inl (verdict_hash_none now (urlParse p) s hh))
    | some hv =>
      by_cases hne : hv = ""
      · subst hne
        exact Or.inr (Or.inl (verdict_hash_empty now (urlParse p) s hh))
      · by_cases hc : calcHashOfParams (urlParse p) s = hv
        · cases hu : paramsGet (paramsDelete (urlParse p) "hash") "user" with
          | none =>
            exact Or.inr (Or.inr (Or.inr (Or.inl
              (verdict_user_none now (urlParse p) s hv hh hne hc hu))))
          | some u =>
            by_cases hune : u = ""
            · subst hune
              exact Or.inr (Or.inr (Or.inr (Or.inl
                (verdict_user_empty now (urlParse p) s hv hh hne hc hu))))
            · cases hj : parseJson u with
              | none =>
                exact Or.inr (Or.inr (Or.inr (Or.inr (Or.inl
                  (verdict_user_malformed now (urlParse p) s hv u hh hne hc hu hune hj)))))
              | some j =>
                exact Or.inr (Or.inr (Or.inr (Or.inr (Or.inr
                  ⟨j, verdict_valid now (urlParse p) s hv u j hh hne hc hu hune hj⟩))))
        · exact Or.inr (Or.inr (Or.inl (verdict_mismatch now (urlParse p) s hv hh hne hc)))

/-- C2 counterexample: the EMPTY payload yields no reason code at all
(the claim requires `missing_hash`); a payload whose hash pair has an
EMPTY value yields `missing_hash` even though the supplied hash differs
from the (nonempty) recomputed one, where the claim's mismatch clause
requires `hash_mismatch`; and a correctly signed payload whose user value
is the empty string — which fails JSON parsing — yields
`missing_user_data` where the claim requires `malformed_user_json`. -/
theorem C2_counterexample :
    (isValidTelegramData 0 "" "S").error = none ∧
      suppliedHash "hash=&a=1" = some "" ∧ calcHash "hash=&a=1" "S" ≠ "" ∧
      (isValidTelegramData 0 "hash=&a=1" "S").error = some errMissingHash ∧
      suppliedHash pEmptyUser = some (calcHash pEmptyUser "S") ∧
      embeddedUserRaw pEmptyUser = some "" ∧ parseJson "" = none ∧
      (isValidTelegramData 0 pEmptyUser "S").error = some errMissingUser :=
  ⟨rfl, rfl, calcHashOfParams_ne_empty _ _, rfl, by decide, rfl, rfl, rfl⟩

/-- C2 (amended): with a non-empty secret — the empty payload yields a
tagged verdict with an ABSENT reason (the missing-input short-circuit); a
non-empty payload with no hash pair, or whose first hash value is empty,
yields `missing_hash`; a non-empty supplied hash differing from the
recomputed hash yields `hash_mismatch`; with a matching hash, an absent or
EMPTY embedded user value yields `missing_user_data`, and a non-empty user
value that fails JSON parsing yields `malformed_user_json`.  No input
crashes the verifier. -/
theorem C2_amended (now : Nat) (p s : String) (hs : s ≠ "") :
    (p = "" → (isValidTelegramData now p s).error = none) ∧
      (p ≠ "" → suppliedHash p = none →
        (isValidTelegramData now p s).error = some errMissingHash) ∧
      (p ≠ "" → suppliedHash p = some "" →
        (isValidTelegramData now p s).error = some errMissingHash) ∧
      (∀ h, p ≠ "" → suppliedHash p = some h → h ≠ "" → calcHash p s ≠ h →
        (isValidTelegramData now p s).error = some errHashMismatch) ∧
      (∀ h, p ≠ "" → suppliedHash p = some h → h ≠ "" → calcHash p s = h →
        embeddedUserRaw p = none →
        (isValidTelegramData now p s).error = some errMissingUser) ∧
      (∀ h, p ≠ "" → suppliedHash p = some h → h ≠ "" → calcHash p s = h →
        embeddedUserRaw p = some "" →
        (isValidTelegramData now p s).error = some errMissingUser) ∧
      (∀ h u, p ≠ "" → suppliedHash p = some h → h ≠ "" → calcHash p s = h →
        embeddedUserRaw p = some u → u ≠ "" → parseJson u = none →
        (isValidTelegramData now p s).error = some errMalformedUser) := by
  refine ⟨?_, ?_, ?_, ?_, ?_, ?_, ?_⟩
  · intro hp
    subst hp
    rw [run_short now "" s (by simp [String.isEmpty])]
  · intro hp hh
    rw [run_verify now p s hp hs, verdict_hash_none now (urlParse p) s hh]
  · intro hp hh
    rw [run_verify now p s hp hs, verdict_hash_empty now (urlParse p) s hh]
  · intro h hp hh hne hc
    rw [run_verify now p s hp hs, verdict_mismatch now (urlParse p) s h hh hne hc]
  · intro h hp hh hne hc hu
    rw [run_verify now p s hp hs, verdict_user_none now (urlParse p) s h hh hne hc hu]
  · intro h hp hh hne hc hu
    rw [run_verify now p s hp hs, verdict_user_empty now (urlParse p) s h hh hne hc hu]
  · intro h u hp hh hne hc hu hune hj
    rw [run_verify now p s hp hs,
      verdict_user_malformed now (urlParse p) s h u hh hne hc hu hune hj]

/-- Witness for the amended C2: each reason clause exercised at a concrete
input (empty payload; hashless payload; wrong hash; correctly signed with
empty user value; correctly signed with unparseable user value). -/
theorem C2_amended_witness :
    (isValidTelegramData 0 "" "S").error = none ∧
      (isValidTelegramData 0 "a=1" "S").error = some errMissingHash ∧
      (isValidTelegramData 0 "user=%7B%7D&hash=deadbeef" "S").error =
        some errHashMismatch ∧
      (isValidTelegramData 0 pEmptyUser "S").error = some errMissingUser ∧
      (isValidTelegramData 0 pBadJson "S").error = some errMalformedUser :=
  ⟨(C2_amended 0 "" "S" (by decide)).1 rfl,
   (C2_amended 0 "a=1" "S" (by decide)).2.1 (by decide) rfl,
   (C2_amended 0 "user=%7B%7D&hash=deadbeef" "S" (by decide)).2.2.2.1 "deadbeef"
     (by decide) rfl (by decide) (by decide),
   (C2_amended 0 pEmptyUser "S" (by decide)).2.2.2.2.2.1
     "566608b43f82f8f115e8e943a51bf92e5574dab8f13d0d6bdbbb822fa32526cd"
     (by decide) rfl (by decide) (by decide) rfl,
   (C2_amended 0 pBadJson "S" (by decide)).2.2.2.2.2.2
     "62d3b1bed1d5bc1bcd8a9733b8f6e6b521db01688e6428a4df83002851c7d02f" "\x7bbad"
     (by decide) rfl (by decide) (by decide) rfl (by decide) rfl⟩

/-- C1 counterexample, two failure modes: (a) a payload whose keys include
U+FF61 and U+10000 carries exactly the hash prescribed by the claim
(byte-wise ascending key sort) and a parseable user value, yet the code —
which sorts by UTF-16 code units — rejects it; (b) a payload correctly
hashed for the EMPTY secret per the claim's formula is rejected by the
code's missing-input short-circuit. -/
theorem C1_counterexample :
    (suppliedHash pExotic = some (specCalculatedHash pExotic "S") ∧
        (embeddedClaim pExotic).isSome = true ∧
        (isValidTelegramData 0 pExotic "S").valid = false) ∧
      suppliedHash pEmptySecret = some (specCalculatedHash pEmptySecret "") ∧
        (embeddedClaim pEmptySecret).isSome = true ∧
        (isValidTelegramData 0 pEmptySecret "").valid = false :=
  ⟨⟨by decide, rfl, rfl⟩, by decide, rfl, rfl⟩

/-- C1 (amended): for every payload containing a hash pair and every
NON-EMPTY secret, the verdict is `valid = true` iff the supplied (first)
hash value equals the hex HMAC-SHA256 chain recomputed over the data-check
string whose pairs are sorted by key in UTF-16 CODE-UNIT ascending order
(the order `URLSearchParams.sort()` actually uses; it agrees with the
spec's byte-wise order on all-ASCII keys) and the embedded user value
parses as JSON; and a valid verdict carries exactly the parsed embedded
claim (top-level JSON `null` collapsing to the absent claim). -/
theorem C1_amended (now : Nat) (p s : String) (hs : s ≠ "") (hp : hasHashPair p = true) :
    ((isValidTelegramData now p s).valid = true ↔
        suppliedHash p = some (calcHash p s) ∧ (embeddedClaim p).isSome = true) ∧
      ((isValidTelegramData now p s).valid = true →
        ∃ j, embeddedClaim p = some j ∧
          (isValidTelegramData now p s).user = jsonToField j) := by
  have hpne : p ≠ "" := by
    intro he
    subst he
    exact absurd hp (by decide)
  rw [run_verify now p s hpne hs]
  constructor
  · rw [verdict_valid_iff now (urlParse p) s]
    constructor
    · rintro ⟨h, u, j, hh, hne, hc, hu, hune, hj⟩
      refine ⟨by rw [show suppliedHash p = paramsGet (urlParse p) "hash" from rfl, hh,
        show calcHash p s = calcHashOfParams (urlParse p) s from rfl, hc], ?_⟩
      have : embeddedClaim p = some j := by
        show (embeddedUserRaw p).bind parseJson = some j
        rw [show embeddedUserRaw p = paramsGet (paramsDelete (urlParse p) "hash") "user"
          from rfl, hu]
        exact hj
      rw [this]
      rfl
    · rintro ⟨hsup, hcl⟩
      rcases hu : embeddedUserRaw p with _ | u
      · exfalso
        rw [show embeddedClaim p = (embeddedUserRaw p).bind parseJson from rfl, hu] at hcl
        simp at hcl
      · rcases hj : parseJson u with _ | j
        · exfalso
          rw [show embeddedClaim p = (embeddedUserRaw p).bind parseJson from rfl, hu] at hcl
          simp [hj] at hcl
        · refine ⟨calcHash p s, u, j, hsup, calcHashOfParams_ne_empty _ _, rfl, hu, ?_, hj⟩
          intro hue
          subst hue
          rw [show parseJson "" = (none : Option Json) from rfl] at hj
          exact Option.noConfusion hj
  · intro hv
    obtain ⟨u, j, hu, hj, huser⟩ := verdict_valid_user now (urlParse p) s hv
    refine ⟨j, ?_, huser⟩
    show (embeddedUserRaw p).bind parseJson = some j
    rw [show embeddedUserRaw p = paramsGet (paramsDelete (urlParse p) "hash") "user"
      from rfl, hu]
    exact hj

/-- Witness for the amended C1: the spec §8 end-to-end payload with secret
S3cr3t is accepted, with its parsed claim, and its hash matches the
recomputed chain. -/
theorem C1_amended_witness :
    (isValidTelegramData 0 pAnn "S3cr3t").valid = true ∧
      ∃ j, embeddedClaim pAnn = some j ∧
        (isValidTelegramData 0 pAnn "S3cr3t").user = jsonToField j := by
  have h := C1_amended 0 pAnn "S3cr3t" (by decide) rfl
  have hv : (isValidTelegramData 0 pAnn "S3cr3t").valid = true :=
    h.1.mpr ⟨by decide, rfl⟩
  exact ⟨hv, h.2 hv⟩

/-! ## Store and sorting helper lemmas -/

theorem lookupStore_storeSet (store : UserStore) (k : String) (p : Profile) :
    lookupStore (storeSet store k p) k = some p := by
  induction store with
  | nil => simp [storeSet, lookupStore]
  | cons e es ih =>
    unfold storeSet
    by_cases he : e.1 = k
    · simp [lookupStore, he]
    · simp [lookupStore, he, ih]

theorem paramsGet_eq_find (ps : List (String × String)) (k : String) :
    paramsGet ps k = (ps.find? fun e => e.1 == k).map Prod.snd := by
  induction ps with
  | nil => rfl
  | cons e es ih =>
    unfold paramsGet
    by_cases he : e.1 = k
    · simp [List.find?_cons, he]
    · rw [if_neg he, ih]
      have : (e.1 == k) = false := by simp [he]
      simp [List.find?_cons, this]

theorem insertPair_perm (x : String × String) (l : List (String × String)) :
    (insertPair x l).Perm (x :: l) := by
  induction l with
  | nil => exact List.Perm.refl _
  | cons y ys ih =>
    unfold insertPair
    by_cases h : keyLt x y
    · rw [if_pos h]
    · rw [if_neg h]
      exact (List.Perm.cons y ih).trans (List.Perm.swap x y ys)

theorem foldl_insertPair_perm (ps acc : List (String × String)) :
    (ps.foldl (fun a x => insertPair x a) acc).Perm (ps ++ acc) := by
  induction ps generalizing acc with
  | nil => simp
  | cons p ps ih =>
    rw [List.foldl_cons]
    refine (ih (insertPair p acc)).trans ?_
    refine (List.Perm.append_left ps (insertPair_perm p acc)).trans ?_
    exact List.perm_middle

theorem sortParams_perm (ps : List (String × String)) : (sortParams ps).Perm ps := by
  have h := foldl_insertPair_perm ps []
  rw [List.append_nil] at h
  exact h

/-- C4 counterexample: for an existing profile with username `bob` and a
claim whose `username` is PRESENT but empty, a successful sync keeps
`bob` instead of setting the claim's value, because the merge uses
JavaScript truthiness, not presence. -/
theorem C4_counterexample :
    tgBo.username = JStr.str "" ∧
      lookupStore [("7", exBob)] (toString tgBo.id) = some exBob ∧
      syncProfile [("7", exBob)] tgBo "newcode1" 200 =
        some ([("7", applyUpdate exBob (mkUpdateData 200 tgBo exBob))],
          mergedView (applyUpdate exBob (mkUpdateData 200 tgBo exBob))) ∧
      (applyUpdate exBob (mkUpdateData 200 tgBo exBob)).username = JStr.str "bob" := by
  decide

/-- C4 (amended): a successful sync for an existing profile leaves
`tokens`, `referralCode`, `referredBy`, `referralsMade`, `createdAt` and
`connectedWallet` unchanged in the store, refreshes `lastLogin`, and sets
each of `username`, `firstName`, `lastName`, `languageCode` to the claim's
value if TRUTHY (present, non-null and non-empty), else the existing value
via the same truthiness fallback — `username`/`lastName` falling back to
null, `firstName`/`languageCode` to the existing value (the sync failing
at the store layer when that result is `undefined`). -/
theorem C4_amended (store : UserStore) (tg : TgUser) (code : String) (now : Nat)
    (ex : Profile) (store' : UserStore) (resp : Profile)
    (hex : lookupStore store (toString tg.id) = some ex)
    (hsync : syncProfile store tg code now = some (store', resp)) :
    ∃ p', lookupStore store' (toString tg.id) = some p' ∧
      p'.tokens = ex.tokens ∧ p'.referralCode = ex.referralCode ∧
      p'.referredBy = ex.referredBy ∧ p'.referralsMade = ex.referralsMade ∧
      p'.createdAt = ex.createdAt ∧ p'.connectedWallet = ex.connectedWallet ∧
      p'.lastLogin = some now ∧
      p'.username = jsOr tg.username (jsOr ex.username JStr.null) ∧
      p'.firstName = jsOr tg.first_name ex.firstName ∧
      p'.lastName = jsOr tg.last_name (jsOr ex.lastName JStr.null) ∧
      p'.languageCode = jsOr tg.language_code ex.languageCode := by
  simp only [syncProfile, hex] at hsync
  unfold syncExisting at hsync
  by_cases hw : updateWritable (mkUpdateData now tg ex)
  · rw [if_pos hw] at hsync
    simp only [Option.some.injEq, Prod.mk.injEq] at hsync
    obtain ⟨hstore, _⟩ := hsync
    refine ⟨applyUpdate ex (mkUpdateData now tg ex), ?_, rfl, rfl, rfl, rfl, rfl, rfl,
      rfl, rfl, rfl, rfl, rfl⟩
    rw [← hstore]
    exact lookupStore_storeSet store (toString tg.id) _
  · rw [if_neg hw] at hsync
    exact absurd hsync (by simp)

/-- Witness for the amended C4 at the concrete fixture: username stays
`bob`, `firstName` takes the claim's `Bo`, `lastLogin` becomes 200, tokens
and referral data survive. -/
theorem C4_amended_witness :
    ∃ p', lookupStore (storeSet [("7", exBob)] "7"
          (applyUpdate exBob (mkUpdateData 200 tgBo exBob))) (toString tgBo.id) =
        some p' ∧
      p'.tokens = exBob.tokens ∧ p'.referralCode = exBob.referralCode ∧
      p'.referredBy = exBob.referredBy ∧ p'.referralsMade = exBob.referralsMade ∧
      p'.createdAt = exBob.createdAt ∧ p'.connectedWallet = exBob.connectedWallet ∧
      p'.lastLogin = some 200 ∧
      p'.username = jsOr tgBo.username (jsOr exBob.username JStr.null) ∧
      p'.firstName = jsOr tgBo.first_name exBob.firstName ∧
      p'.lastName = jsOr tgBo.last_name (jsOr exBob.lastName JStr.null) ∧
      p'.languageCode = jsOr tgBo.language_code exBob.languageCode :=
  C4_amended [("7", exBob)] tgBo "newcode1" 200 exBob
    (storeSet [("7", exBob)] "7" (applyUpdate exBob (mkUpdateData 200 tgBo exBob)))
    (mergedView (applyUpdate exBob (mkUpdateData 200 tgBo exBob)))
    (by decide) (by decide)

/-- C5 counterexample: the freshly created profile stores the NUMERIC
claim id in its `userId` field (`String(id)` is only the document key),
and a PRESENT-but-empty `first_name` still falls back to the placeholder,
contradicting the claim's `userId = string(claim.id)` and
absence-only defaulting. -/
theorem C5_counterexample :
    lookupStore [] (toString tgNew.id) = none ∧
      syncProfile [] tgNew "abcd1234" 300 =
        some ([("42", newUserProfile tgNew "abcd1234" 300)],
          newUserProfile tgNew "abcd1234" 300) ∧
      (newUserProfile tgNew "abcd1234" 300).userId = IdVal.numId 42 ∧
      IdVal.numId 42 ≠ IdVal.strId (toString (42 : Int)) ∧
      tgNew.first_name = JStr.str "" ∧
      (newUserProfile tgNew "abcd1234" 300).firstName = JStr.str "User" := by
  decide

/-- C5 (amended): for a claim with no stored profile, sync inserts at key
`string(claim.id)` a profile with `tokens = 0`, `referralsMade = 0`,
`referredBy = null`, `connectedWallet = null`, `referralCode` the freshly
generated 8-character code, `createdAt = lastLogin = now`, `firstName`
defaulting to the literal `User` and `languageCode` to `en` when the
claim's field is absent or falsy, and a `userId` field equal to the
NUMERIC `claim.id` (not `string(claim.id)`, which is only the document
key); that profile is returned. -/
theorem C5_amended (store : UserStore) (tg : TgUser) (code : String) (now : Nat)
    (habs : lookupStore store (toString tg.id) = none) (hlen : code.length = 8) :
    syncProfile store tg code now =
      some (storeSet store (toString tg.id) (newUserProfile tg code now),
        newUserProfile tg code now) ∧
      lookupStore (storeSet store (toString tg.id) (newUserProfile tg code now))
          (toString tg.id) = some (newUserProfile tg code now) ∧
      (newUserProfile tg code now).tokens = some 0 ∧
      (newUserProfile tg code now).referralsMade = some 0 ∧
      (newUserProfile tg code now).referredBy = JStr.null ∧
      (newUserProfile tg code now).connectedWallet = JStr.null ∧
      (newUserProfile tg code now).referralCode = some code ∧
      (∃ c, (newUserProfile tg code now).referralCode = some c ∧ c.length = 8) ∧
      (newUserProfile tg code now).createdAt = some now ∧
      (newUserProfile tg code now).lastLogin = some now ∧
      (newUserProfile tg code now).userId = IdVal.numId tg.id ∧
      (newUserProfile tg code now).username = jsOr tg.username JStr.null ∧
      (newUserProfile tg code now).firstName = jsOr tg.first_name (JStr.str "User") ∧
      (newUserProfile tg code now).lastName = jsOr tg.last_name JStr.null ∧
      (newUserProfile tg code now).languageCode = jsOr tg.language_code (JStr.str "en") := by
  refine ⟨?_, lookupStore_storeSet store (toString tg.id) _, rfl, rfl, rfl, rfl, rfl,
    ⟨code, rfl, hlen⟩, rfl, rfl, rfl, rfl, rfl, rfl, rfl⟩
  simp only [syncProfile, habs]

/-- Witness for the amended C5 at a concrete fresh claim (negative id,
present username and language). -/
theorem C5_amended_witness :
    syncProfile [("7", exBob)] tgCarol "abcdefgh" 400 =
      some (storeSet [("7", exBob)] (toString tgCarol.id)
          (newUserProfile tgCarol "abcdefgh" 400),
        newUserProfile tgCarol "abcdefgh" 400) ∧
      lookupStore (storeSet [("7", exBob)] (toString tgCarol.id)
          (newUserProfile tgCarol "abcdefgh" 400)) (toString tgCarol.id) =
        some (newUserProfile tgCarol "abcdefgh" 400) ∧
      (newUserProfile tgCarol "abcdefgh" 400).tokens = some 0 ∧
      (newUserProfile tgCarol "abcdefgh" 400).referralsMade = some 0 ∧
      (newUserProfile tgCarol "abcdefgh" 400).referredBy = JStr.null ∧
      (newUserProfile tgCarol "abcdefgh" 400).connectedWallet = JStr.null ∧
      (newUserProfile tgCarol "abcdefgh" 400).referralCode = some "abcdefgh" ∧
      (∃ c, (newUserProfile tgCarol "abcdefgh" 400).referralCode = some c ∧
        c.length = 8) ∧
      (newUserProfile tgCarol "abcdefgh" 400).createdAt = some 400 ∧
      (newUserProfile tgCarol "abcdefgh" 400).lastLogin = some 400 ∧
      (newUserProfile tgCarol "abcdefgh" 400).userId = IdVal.numId tgCarol.id ∧
      (newUserProfile tgCarol "abcdefgh" 400).username = jsOr tgCarol.username JStr.null ∧
      (newUserProfile tgCarol "abcdefgh" 400).firstName =
        jsOr tgCarol.first_name (JStr.str "User") ∧
      (newUserProfile tgCarol "abcdefgh" 400).lastName =
        jsOr tgCarol.last_name JStr.null ∧
      (newUserProfile tgCarol "abcdefgh" 400).languageCode =
        jsOr tgCarol.language_code (JStr.str "en") :=
  C5_amended [("7", exBob)] tgCarol "abcdefgh" 400 (by decide) (by decide)

/-- C6 counterexample: for the duplicate-key payload `a=1`, `a=2` (plus a
hash pair), extraction is FIRST-value (`1`, not the last-value `2`), and
the canonical data-check entries keep BOTH occurrences rather than one
entry per key. -/
theorem C6_counterexample :
    paramsGet (urlParse "a=1&a=2&hash=x") "a" = some "1" ∧
      paramsGetLast (urlParse "a=1&a=2&hash=x") "a" = some "2" ∧
      (some "1" : Option String) ≠ some "2" ∧
      ((sortParams (paramsNoHash "a=1&a=2&hash=x")).map fun q => q.1 ++ "=" ++ q.2) =
        ["a=1", "a=2"] ∧
      ((paramsNoHash "a=1&a=2&hash=x").map Prod.fst).dedup.length = 1 := by
  decide

/-- C6 (amended): duplicate keys are preserved, not deduplicated — the
value extracted for a key is that of the FIRST pair with that name, the
canonical entries are a permutation of ALL non-hash pairs (one entry per
occurrence, so their count equals the pair count), and extraction and the
canonical string both derive from the same parsed pair list. -/
theorem C6_amended (p k : String) :
    paramsGet (urlParse p) k = ((urlParse p).find? fun e => e.1 == k).map Prod.snd ∧
      (sortParams (paramsNoHash p)).Perm (paramsNoHash p) ∧
      ((sortParams (paramsNoHash p)).map fun q => q.1 ++ "=" ++ q.2).length =
        (paramsNoHash p).length ∧
      dataCheckString (paramsNoHash p) =
        String.intercalate (String.mk [Char.ofNat 10])
          ((sortParams (paramsNoHash p)).map fun q => q.1 ++ "=" ++ q.2) := by
  refine ⟨paramsGet_eq_find (urlParse p) k, sortParams_perm _, ?_, rfl⟩
  rw [List.length_map]
  exact (sortParams_perm (paramsNoHash p)).length_eq

/-! ## Lexicographic order facts and UTF-16 injectivity (towards C9) -/

theorem unitsLt_asymm (a b : List Nat) (h : unitsLt a b = true) : unitsLt b a = false := by
  induction a generalizing b with
  | nil =>
    cases b with
    | nil => simp [unitsLt] at h
    | cons y ys => simp [unitsLt]
  | cons x xs ih =>
    cases b with
    | nil => simp [unitsLt] at h
    | cons y ys =>
      unfold unitsLt at h ⊢
      by_cases h1 : x < y
      · have h2 : ¬ y < x := by omega
        simp [h1, h2]
      · by_cases h2 : y < x
        · simp [h1, h2] at h
        · simp [h1, h2] at h ⊢
          exact ih ys h

theorem unitsLt_trans (a b c : List Nat) (h1 : unitsLt a b = true)
    (h2 : unitsLt b c = true) : unitsLt a c = true := by
  induction a generalizing b c with
  | nil =>
    cases c with
    | nil => cases b <;> simp [unitsLt] at h1 h2
    | cons z zs => simp [unitsLt]
  | cons x xs ih =>
    cases b with
    | nil => simp [unitsLt] at h1
    | cons y ys =>
      cases c with
      | nil => simp [unitsLt] at h2
      | cons z zs =>
        unfold unitsLt at h1 h2 ⊢
        by_cases hxy : x < y
        · by_cases hyz : y < z
          · have : x < z := by omega
            simp [this]
          · by_cases hzy : z < y
            · simp [hyz, hzy] at h2
            · have : y = z := by omega
              subst this
              simp [hxy]
        · by_cases hyx : y < x
          · simp [hxy, hyx] at h1
          · have : x = y := by omega
            subst this
            simp [hxy] at h1
            by_cases hyz : x < z
            · simp [hyz]
            · by_cases hzy : z < x
              · simp [hyz, hzy] at h2
              · simp [hyz, hzy] at h2 ⊢
                exact ih ys zs h1 h2

theorem unitsLt_connex (a b : List Nat) (h1 : unitsLt a b = false)
    (h2 : unitsLt b a = false) : a = b := by
  induction a generalizing b with
  | nil =>
    cases b with
    | nil => rfl
    | cons y ys => simp [unitsLt] at h1
  | cons x xs ih =>
    cases b with
    | nil => simp [unitsLt] at h2
    | cons y ys =>
      unfold unitsLt at h1 h2
      by_cases hxy : x < y
      · simp [hxy] at h1
      · by_cases hyx : y < x
        · simp [hyx] at h2
        · have hx : x = y := by omega
          subst hx
          simp [hxy] at h1 h2
          rw [ih ys h1 h2]

theorem charUnits_ne_nil (c : Char) : charUnits c ≠ [] := by
  unfold charUnits
  by_cases h : c.toNat < 65536 <;> simp [h]

/-- Bounds for `Char` as a Unicode scalar value, in `Nat` form. -/
theorem char_scalar_bounds (c : Char) :
    c.toNat < 55296 ∨ (57343 < c.toNat ∧ c.toNat < 1114112) := c.valid

theorem charUnits_append_inj (c d : Char) (l m : List Nat)
    (h : charUnits c ++ l = charUnits d ++ m) : c = d ∧ l = m := by
  have hc := char_scalar_bounds c
  have hd := char_scalar_bounds d
  unfold charUnits at h
  by_cases h1 : c.toNat < 65536 <;> by_cases h2 : d.toNat < 65536 <;>
    simp only [h1, h2, if_true, if_false, if_pos, if_neg, List.cons_append,
      List.nil_append, List.cons.injEq] at h
  · obtain ⟨hcd, hlm⟩ := h
    refine ⟨?_, hlm⟩
    have he := congrArg Char.ofNat hcd
    rwa [Char.ofNat_toNat, Char.ofNat_toNat] at he
  · exfalso
    obtain ⟨hcd, -⟩ := h
    omega
  · exfalso
    obtain ⟨hcd, -⟩ := h
    omega
  · obtain ⟨hq, hr, hlm⟩ := h
    refine ⟨?_, hlm⟩
    have hn : c.toNat = d.toNat := by omega
    have he := congrArg Char.ofNat hn
    rwa [Char.ofNat_toNat, Char.ofNat_toNat] at he

theorem flatMap_charUnits_inj (cs : List Char) : ∀ (ds : List Char),
    cs.flatMap charUnits = ds.flatMap charUnits → cs = ds := by
  induction cs with
  | nil =>
    intro ds h
    cases ds with
    | nil => rfl
    | cons d ds' =>
      rw [List.flatMap_nil, List.flatMap_cons] at h
      rcases List.append_eq_nil.mp h.symm with ⟨hnil, -⟩
      exact absurd hnil (charUnits_ne_nil d)
  | cons c cs' ih =>
    intro ds h
    cases ds with
    | nil =>
      rw [List.flatMap_cons, List.flatMap_nil] at h
      rcases List.append_eq_nil.mp h with ⟨hnil, -⟩
      exact absurd hnil (charUnits_ne_nil c)
    | cons d ds' =>
      rw [List.flatMap_cons, List.flatMap_cons] at h
      obtain ⟨hcd, hrest⟩ := charUnits_append_inj c d _ _ h
      rw [hcd, ih ds' hrest]

theorem codeUnits_inj (s t : String) (h : codeUnits s = codeUnits t) : s = t := by
  have hd : s.data = t.data := flatMap_charUnits_inj s.data t.data h
  cases s
  cases t
  exact congrArg String.mk hd

/-! ## Lookup and sorting under permutation with distinct keys -/

theorem eq_of_mem_of_nodup_keys (l : List (String × String))
    (hnd : (l.map Prod.fst).Nodup) (a b : String × String)
    (ha : a ∈ l) (hb : b ∈ l) (hk : a.1 = b.1) : a = b := by
  induction l with
  | nil => cases ha
  | cons c cs ih =>
    rw [List.map_cons, List.nodup_cons] at hnd
    obtain ⟨hc, hnd'⟩ := hnd
    rcases List.mem_cons.mp ha with rfl | ha'
    · rcases List.mem_cons.mp hb with rfl | hb'
      · rfl
      · exfalso
        apply hc
        rw [hk]
        exact List.mem_map_of_mem Prod.fst hb'
    · rcases List.mem_cons.mp hb with rfl | hb'
      · exfalso
        apply hc
        rw [← hk]
        exact List.mem_map_of_mem Prod.fst ha'
      · exact ih hnd' ha' hb'

theorem find_key_perm (ps1 ps2 : List (String × String)) (k : String)
    (hp : ps1.Perm ps2) (hnd : (ps1.map Prod.fst).Nodup) :
    ps1.find? (fun e => e.1 == k) = ps2.find? (fun e => e.1 == k) := by
  cases h1 : ps1.find? (fun e => e.1 == k) with
  | none =>
    symm
    rw [List.find?_eq_none] at h1 ⊢
    exact fun x hx => h1 x (hp.symm.subset hx)
  | some a =>
    have hmem := List.mem_of_find?_eq_some h1
    have hpa := List.find?_some h1
    cases h2 : ps2.find? (fun e => e.1 == k) with
    | none =>
      exfalso
      rw [List.find?_eq_none] at h2
      exact h2 a (hp.subset hmem) hpa
    | some b =>
      have hmemb := hp.symm.subset (List.mem_of_find?_eq_some h2)
      have hpb := List.find?_some h2
      have hab : a = b := by
        apply eq_of_mem_of_nodup_keys ps1 hnd a b hmem hmemb
        simp only [beq_iff_eq] at hpa hpb
        rw [hpa, hpb]
      rw [hab]

theorem paramsGet_perm (ps1 ps2 : List (String × String)) (k : String)
    (hp : ps1.Perm ps2) (hnd : (ps1.map Prod.fst).Nodup) :
    paramsGet ps1 k = paramsGet ps2 k := by
  rw [paramsGet_eq_find, paramsGet_eq_find, find_key_perm ps1 ps2 k hp hnd]

theorem keyLt_asymm (x y : String × String) (h : keyLt x y = true) :
    keyLt y x = false := unitsLt_asymm _ _ h

theorem keyLt_trans (x y z : String × String) (h1 : keyLt x y = true)
    (h2 : keyLt y z = true) : keyLt x z = true := unitsLt_trans _ _ _ h1 h2

theorem pairwise_insertPair (x : String × String) (l : List (String × String))
    (hl : l.Pairwise keyLe) : (insertPair x l).Pairwise keyLe := by
  induction l with
  | nil => simp [insertPair, List.pairwise_cons]
  | cons y ys ih =>
    rw [List.pairwise_cons] at hl
    obtain ⟨hy, hys⟩ := hl
    unfold insertPair
    by_cases hxy : keyLt x y = true
    · rw [if_pos hxy, List.pairwise_cons]
      constructor
      · intro w hw
        rcases List.mem_cons.mp hw with rfl | hw'
        · exact keyLt_asymm x w hxy
        · show keyLt w x = false
          cases hwx : keyLt w x with
          | false => rfl
          | true =>
            exfalso
            have hwy := keyLt_trans w x y hwx hxy
            have := hy w hw'
            rw [keyLe] at this
            rw [this] at hwy
            exact Bool.noConfusion hwy
      · rw [List.pairwise_cons]
        exact ⟨hy, hys⟩
    · rw [if_neg hxy, List.pairwise_cons]
      refine ⟨?_, ih hys⟩
      intro w hw
      rcases List.mem_cons.mp ((insertPair_perm x ys).subset hw) with rfl | hw'
      · show keyLt w y = false
        rw [Bool.not_eq_true] at hxy
        exact hxy
      · exact hy w hw'

theorem foldl_insertPair_pairwise (ps : List (String × String)) :
    ∀ acc, acc.Pairwise keyLe →
      (ps.foldl (fun a x => insertPair x a) acc).Pairwise keyLe := by
  induction ps with
  | nil => exact fun acc h => h
  | cons p ps ih => exact fun acc h => ih _ (pairwise_insertPair p acc h)

theorem sortParams_pairwise (ps : List (String × String)) :
    (sortParams ps).Pairwise keyLe :=
  foldl_insertPair_pairwise ps [] List.Pairwise.nil

/-- Two permuted pair lists with pairwise-distinct keys have the same
stable sort: insertion sorting either yields the unique key-sorted
arrangement. -/
theorem sortParams_eq_of_perm (ps1 ps2 : List (String × String)) (hp : ps1.Perm ps2)
    (hnd : (ps1.map Prod.fst).Nodup) : sortParams ps1 = sortParams ps2 := by
  apply List.Perm.eq_of_sorted ?_ (sortParams_pairwise ps1)
    (sortParams_pairwise ps2)
    (((sortParams_perm ps1).trans hp).trans (sortParams_perm ps2).symm)
  intro a b ha hb hab hba
  have hcu : codeUnits a.1 = codeUnits b.1 := unitsLt_connex _ _ hba hab
  have hk : a.1 = b.1 := codeUnits_inj _ _ hcu
  exact eq_of_mem_of_nodup_keys ps1 hnd a b ((sortParams_perm ps1).subset ha)
    (hp.symm.subset ((sortParams_perm ps2).subset hb)) hk

/-- The verifier body is invariant under permutation of the parsed pairs
when their keys are pairwise distinct. -/
theorem verdictOfParams_perm (now : Nat) (tok : String)
    (ps1 ps2 : List (String × String)) (hp : ps1.Perm ps2)
    (hnd : (ps1.map Prod.fst).Nodup) :
    verdictOfParams now ps1 tok = verdictOfParams now ps2 tok := by
  have hget : paramsGet ps1 "hash" = paramsGet ps2 "hash" :=
    paramsGet_perm ps1 ps2 "hash" hp hnd
  have hdel : (paramsDelete ps1 "hash").Perm (paramsDelete ps2 "hash") :=
    hp.filter _
  have hnd' : ((paramsDelete ps1 "hash").map Prod.fst).Nodup :=
    hnd.sublist ((List.filter_sublist ps1).map Prod.fst)
  have hgetu : paramsGet (paramsDelete ps1 "hash") "user" =
      paramsGet (paramsDelete ps2 "hash") "user" :=
    paramsGet_perm _ _ "user" hdel hnd'
  have hsort : sortParams (paramsDelete ps1 "hash") =
      sortParams (paramsDelete ps2 "hash") :=
    sortParams_eq_of_perm _ _ hdel hnd'
  have hcalc : calcHashOfParams ps1 tok = calcHashOfParams ps2 tok := by
    unfold calcHashOfParams dataCheckString
    rw [hsort]
  simp only [verdictOfParams]
  rw [hget, hcalc, hgetu]

/-! ## Parsing a reassembled segment list -/

theorem utf8Bytes_append (a b : String) :
    utf8Bytes (a ++ b) = utf8Bytes a ++ utf8Bytes b := by
  unfold utf8Bytes
  rw [String.data_append, List.flatMap_append]

theorem utf8Char_mem_38 (c : Char) (h : 38 ∈ utf8Char c) : c = Char.ofNat 38 := by
  simp only [utf8Char] at h
  by_cases h1 : c.toNat < 128
  · rw [if_pos h1] at h
    simp only [List.mem_singleton] at h
    have he := congrArg Char.ofNat h
    rw [Char.ofNat_toNat] at he
    exact he.symm
  · rw [if_neg h1] at h
    exfalso
    by_cases h2 : c.toNat < 2048
    · rw [if_pos h2] at h
      simp only [List.mem_cons, List.mem_singleton, List.not_mem_nil, or_false] at h
      omega
    · rw [if_neg h2] at h
      by_cases h3 : c.toNat < 65536
      · rw [if_pos h3] at h
        simp only [List.mem_cons, List.mem_singleton, List.not_mem_nil, or_false] at h
        omega
      · rw [if_neg h3] at h
        simp only [List.mem_cons, List.mem_singleton, List.not_mem_nil, or_false] at h
        omega

theorem mem_utf8Bytes_38 (s : String) :
    38 ∈ utf8Bytes s ↔ Char.ofNat 38 ∈ s.data := by
  unfold utf8Bytes
  rw [List.mem_flatMap]
  constructor
  · rintro ⟨c, hc, hmem⟩
    rw [← utf8Char_mem_38 c hmem]
    exact hc
  · intro h
    exact ⟨Char.ofNat 38, h, by decide⟩

theorem splitOnByte_no_sep (bs : List Nat) (h : 38 ∉ bs) : splitOnByte 38 bs = [bs] := by
  induction bs with
  | nil => rfl
  | cons b bs ih =>
    have hne : b ≠ 38 := by
      intro hb
      subst hb
      exact h (List.mem_cons_self _ _)
    simp only [splitOnByte]
    rw [if_neg hne, ih fun hm => h (List.mem_cons_of_mem b hm)]

theorem splitOnByte_append (as bs : List Nat) (h : 38 ∉ as) :
    splitOnByte 38 (as ++ 38 :: bs) = as :: splitOnByte 38 bs := by
  induction as with
  | nil =>
    rw [List.nil_append]
    simp [splitOnByte]
  | cons a as ih =>
    have hne : a ≠ 38 := by
      intro ha
      subst ha
      exact h (List.mem_cons_self _ _)
    rw [List.cons_append]
    simp only [splitOnByte]
    rw [if_neg hne, ih fun hm => h (List.mem_cons_of_mem a hm)]

theorem utf8Bytes_joinAmp_cons (s : String) (rest : List String) (h : rest ≠ []) :
    utf8Bytes (joinAmp (s :: rest)) = utf8Bytes s ++ 38 :: utf8Bytes (joinAmp rest) := by
  cases rest with
  | nil => exact absurd rfl h
  | cons r rs =>
    show utf8Bytes (s ++ "&" ++ joinAmp (r :: rs)) = _
    rw [utf8Bytes_append, utf8Bytes_append, List.append_assoc]
    rfl

theorem splitOnByte_joinAmp (segs : List String) (hne : segs ≠ [])
    (hamp : ∀ seg ∈ segs, 38 ∉ utf8Bytes seg) :
    splitOnByte 38 (utf8Bytes (joinAmp segs)) = segs.map utf8Bytes := by
  induction segs with
  | nil => exact absurd rfl hne
  | cons s rest ih =>
    cases rest with
    | nil =>
      exact splitOnByte_no_sep _ (hamp s (List.mem_cons_self _ _))
    | cons r rs =>
      rw [utf8Bytes_joinAmp_cons s (r :: rs) (by simp)]
      rw [splitOnByte_append _ _ (hamp s (List.mem_cons_self _ _))]
      rw [ih (by simp) fun seg hseg => hamp seg (List.mem_cons_of_mem s hseg)]
      rfl

theorem stripQuestion_eq_self (s : String) (h : s.data.head? ≠ some (Char.ofNat 63)) :
    stripQuestion s = s := by
  unfold stripQuestion
  split
  · next c rest heq =>
    rw [if_neg]
    intro hc
    subst hc
    rw [heq] at h
    exact h rfl
  · rfl

theorem joinAmp_head_ne (segs : List String)
    (hq : ∀ seg ∈ segs, seg.data.head? ≠ some (Char.ofNat 63)) :
    (joinAmp segs).data.head? ≠ some (Char.ofNat 63) := by
  cases segs with
  | nil => simp [joinAmp]
  | cons s rest =>
    cases rest with
    | nil => exact hq s (List.mem_cons_self _ _)
    | cons r rs =>
      show ((s ++ "&" ++ joinAmp (r :: rs))).data.head? ≠ _
      rw [String.data_append, String.data_append, List.append_assoc,
        List.head?_append]
      cases hsd : s.data.head? with
      | none =>
        simp only [Option.or]
        rw [show ("&".data ++ (joinAmp (r :: rs)).data).head? =
          some (Char.ofNat 38) from rfl]
        decide
      | some c =>
        simp only [Option.or]
        have := hq s (List.mem_cons_self _ _)
        rw [hsd] at this
        exact this

theorem urlParse_joinAmp (segs : List String) (hne : segs ≠ [])
    (hamp : ∀ seg ∈ segs, Char.ofNat 38 ∉ seg.data)
    (hq : ∀ seg ∈ segs, seg.data.head? ≠ some (Char.ofNat 63)) :
    urlParse (joinAmp segs) = segs.filterMap fun seg => parseSeg (utf8Bytes seg) := by
  unfold urlParse
  rw [stripQuestion_eq_self _ (joinAmp_head_ne segs hq)]
  unfold urlParseBytes
  rw [splitOnByte_joinAmp segs hne fun seg hs hm => hamp seg hs ((mem_utf8Bytes_38 seg).mp hm)]
  rw [List.filterMap_map]
  rfl

theorem joinAmp_eq_empty (segs : List String) (h : joinAmp segs = "") :
    segs = [] ∨ segs = [""] := by
  cases segs with
  | nil => exact Or.inl rfl
  | cons s rest =>
    cases rest with
    | nil =>
      refine Or.inr ?_
      rw [show joinAmp [s] = s from rfl] at h
      rw [h]
    | cons r rs =>
      exfalso
      have hd := congrArg String.data h
      rw [show joinAmp (s :: r :: rs) = s ++ "&" ++ joinAmp (r :: rs) from rfl,
        String.data_append, String.data_append,
        show ("" : String).data = [] from rfl,
        show ("&" : String).data = [Char.ofNat 38] from rfl] at hd
      simp at hd

/-- C9 counterexample, two failure modes: (a) a payload with two `hash`
pairs — the first carrying the correct hash — is accepted, but swapping
the two hash pairs makes `get('hash')` pick the wrong one and the verdict
flips; (b) even with pairwise-distinct keys, swapping a leading `?u=1`
segment into second position changes which pair loses its `?` (the
constructor strips a leading `?` only from the whole string), changing the
data-check string and the verdict. -/
theorem C9_counterexample :
    segsDupHashA.Perm segsDupHashB ∧
      isValidTelegramData 0 (joinAmp segsDupHashA) "S" ≠
        isValidTelegramData 0 (joinAmp segsDupHashB) "S" ∧
      segsQuA.Perm segsQuB ∧
      ((urlParse (joinAmp segsQuA)).map Prod.fst).Nodup ∧
      ((urlParse (joinAmp segsQuB)).map Prod.fst).Nodup ∧
      isValidTelegramData 0 (joinAmp segsQuA) "S" ≠
        isValidTelegramData 0 (joinAmp segsQuB) "S" := by
  refine ⟨List.Perm.swap _ _ _, ?_, List.Perm.swap _ _ _, by decide, by decide, ?_⟩
  · intro h
    have hv := congrArg Verdict.valid h
    rw [show (isValidTelegramData 0 (joinAmp segsDupHashA) "S").valid = true from rfl,
      show (isValidTelegramData 0 (joinAmp segsDupHashB) "S").valid = false from rfl] at hv
    exact Bool.noConfusion hv
  · intro h
    have hv := congrArg Verdict.valid h
    rw [show (isValidTelegramData 0 (joinAmp segsQuA) "S").valid = true from rfl,
      show (isValidTelegramData 0 (joinAmp segsQuB) "S").valid = false from rfl] at hv
    exact Bool.noConfusion hv

/-- C9 (amended): permuting the `&`-separated `key=value` segments of the
input string does not change the verdict, PROVIDED the parsed keys are
pairwise distinct (duplicate keys make both `get('hash')` and the stable
sort order-sensitive), no segment contains `&`, and no segment begins with
`?` (the parser strips a leading `?` from the whole string only). -/
theorem C9_amended (now : Nat) (tok : String) (segs1 segs2 : List String)
    (hperm : segs1.Perm segs2)
    (hamp : ∀ seg ∈ segs1, Char.ofNat 38 ∉ seg.data)
    (hq : ∀ seg ∈ segs1, seg.data.head? ≠ some (Char.ofNat 63))
    (hnd : ((urlParse (joinAmp segs1)).map Prod.fst).Nodup) :
    isValidTelegramData now (joinAmp segs1) tok =
      isValidTelegramData now (joinAmp segs2) tok := by
  by_cases hn : segs1 = []
  · subst hn
    rw [List.nil_perm] at hperm
    rw [hperm]
  · have hn2 : segs2 ≠ [] := by
      intro h2
      subst h2
      exact hn hperm.eq_nil
    have hamp2 : ∀ seg ∈ segs2, Char.ofNat 38 ∉ seg.data :=
      fun seg hs => hamp seg (hperm.symm.subset hs)
    have hq2 : ∀ seg ∈ segs2, seg.data.head? ≠ some (Char.ofNat 63) :=
      fun seg hs => hq seg (hperm.symm.subset hs)
    have hpp : (urlParse (joinAmp segs1)).Perm (urlParse (joinAmp segs2)) := by
      rw [urlParse_joinAmp segs1 hn hamp hq, urlParse_joinAmp segs2 hn2 hamp2 hq2]
      exact hperm.filterMap _
    by_cases hE : joinAmp segs1 = ""
    · have h1 : segs1 = [""] := by
        rcases joinAmp_eq_empty segs1 hE with h | h
        · exact absurd h hn
        · exact h
      have h2 : segs2 = [""] := by
        rw [h1] at hperm
        exact (List.singleton_perm.mp hperm).symm
      rw [h1, h2]
    · have hE2 : joinAmp segs2 ≠ "" := by
        intro he2
        rcases joinAmp_eq_empty segs2 he2 with h | h
        · exact hn2 h
        · rw [h] at hperm
          have h1 : segs1 = [""] := List.perm_singleton.mp hperm
          exact hE (by rw [h1]; rfl)
      by_cases hT : tok = ""
      · subst hT
        rw [run_short now _ ""
            (by rw [show ("" : String).isEmpty = true from rfl, Bool.or_true]),
          run_short now _ ""
            (by rw [show ("" : String).isEmpty = true from rfl, Bool.or_true])]
      · rw [run_verify now _ tok hE hT, run_verify now _ tok hE2 hT]
        exact verdictOfParams_perm now tok _ _ hpp hnd

/-- Witness for the amended C9: swapping two distinct-key segments leaves
the verdict unchanged. -/
theorem C9_amended_witness :
    isValidTelegramData 0 (joinAmp ["a=1", "b=2", "hash=x"]) "S" =
      isValidTelegramData 0 (joinAmp ["b=2", "a=1", "hash=x"]) "S" :=
  C9_amended 0 "S" ["a=1", "b=2", "hash=x"] ["b=2", "a=1", "hash=x"]
    (List.Perm.swap _ _ _) (by decide) (by decide) (by decide)

end WDogs

